import Mathlib

/-!
# Reference counting (`torch/csrc/jit/compiler/include/refcount.h`) and the
# tensor-expression fuser pass (`test/cpp/tensorexpr/test_te_fuser_pass.cpp`)

Part I embeds `RefCounted` and `RefHandle` as state-passing functions over an
explicit heap of reference-counted objects and a store of handles.

* `ref_` is a `std::atomic_int_fast32_t`: a two's-complement integer whose width
  is fixed by the platform.  The width is the field `bits` of `Build`;
  `fetch_add` and `fetch_sub` wrap modulo `2 ^ bits`.
* `DCHECK*` come from `logging.h`, which is not among the sources.  They are
  fatal assertions that are active only when `NDEBUG` is not defined; the field
  `debug` of `Build` says which build is meant.
* `delete this` removes the object from the heap and appends its address to the
  log `deleted`; touching an object that is not live is undefined behaviour and
  is reported as `Fault.undefined`.
* Both `operator=` of `RefHandle` are declared to return `RefHandle&` and have
  no `return` statement.  Flowing off the end of such a function is undefined
  behaviour on every call; it is reported as `Fault.noReturn`, which carries the
  state that the statements of the operator left behind.  The constructors run
  the same statements and return normally.
-/

namespace RefCount

/-- Address of a heap-allocated `RefCounted` object. -/
abbrev Addr := Nat

/-- Identity of a `RefHandle` object (its index in the handle store). -/
abbrev Hnd := Nat

/-- Build parameters: whether `NDEBUG` is undefined (`debug`), and the width in
bits of `int_fast32_t` on the platform. -/
structure Build where
  debug : Bool
  bits : Nat
  deriving DecidableEq, Repr

/-- Half of the modulus of the counter type: `2 ^ (bits - 1)`. -/
def Build.half (b : Build) : Int := 2 ^ (b.bits - 1)

/-- Largest value an `int_fast32_t` can hold. -/
def Build.maxCount (b : Build) : Int := b.half - 1

/-- Two's-complement wrap-around of an arithmetic result into the counter type. -/
def Build.wrap (b : Build) (x : Int) : Int := (x + b.half) % (2 * b.half) - b.half

/-- Wrap-around of `std::atomic<int>` (the process-wide live-object counter). -/
def wrapInt (x : Int) : Int := (x + 2 ^ 31) % 2 ^ 32 - 2 ^ 31

/-- Program state: the heap of live `RefCounted` objects (the value of the
`ref_` field of each), the store of `RefHandle` objects (`none`: no such handle,
`some none`: `node_ == nullptr`, `some (some a)`: `node_` points to `a`), the
static `global_count`, and the log of the addresses on which `delete this` ran. -/
structure World where
  ref_ : Addr → Option Int
  handles : List (Option (Option Addr))
  global_count : Int
  deleted : List Addr

/-- Ways in which a call does not return normally. -/
inductive Fault where
  /-- A `DCHECK` failed: the process aborts in the state `σ`. -/
  | check (σ : World)
  /-- Undefined behaviour: an object or handle that is not live was used. -/
  | undefined
  /-- Undefined behaviour: control reached the end of a function that is
  declared to return a value and has no `return` statement; `σ` is the state
  in which the end was reached. -/
  | noReturn (σ : World)

/-- Modelled from the spec: `logging.h` (the `DCHECK` macros) is not among the
sources.  A `DCHECK` is debug-checked and fatal; in a build with `NDEBUG` its
argument is not evaluated.  The result says whether the check passes. -/
def DCHECK (b : Build) (cond : Bool) : Bool := !b.debug || cond

/-- The empty program state. -/
def World.init : World :=
  { ref_ := fun _ => none, handles := [], global_count := 0, deleted := [] }

/-- Overwrite the `ref_` field of the object at `a`. -/
def World.store (σ : World) (a : Addr) (v : Option Int) : World :=
  { σ with ref_ := Function.update σ.ref_ a v }

/-- The constructor `RefCounted() : ref_(0)`, run on fresh storage at `a`. -/
def RefCounted.new (b : Build) (a : Addr) (σ : World) : Except Fault World :=
  match σ.ref_ a with
  | some _ => .error .undefined
  | none =>
    .ok { σ.store a (some 0) with
          global_count := if b.debug then wrapInt (σ.global_count + 1) else σ.global_count }

/-- Member `RefCounted::Ref`. -/
def Ref (b : Build) (a : Addr) (σ : World) : Except Fault World :=
  match σ.ref_ a with
  | none => .error .undefined
  | some r =>
    if DCHECK b (decide (0 ≤ r)) then .ok (σ.store a (some (b.wrap (r + 1))))
    else .error (.check σ)

/-- Member `RefCounted::RefCountIsOne`. -/
def RefCountIsOne (a : Addr) (σ : World) : Option Bool :=
  (σ.ref_ a).map (fun r => r == 1)

/-- The destructor `~RefCounted` followed by the release of the storage. -/
def RefCounted.delete (b : Build) (a : Addr) (σ : World) : Except Fault World :=
  match σ.ref_ a with
  | none => .error .undefined
  | some r =>
    if DCHECK b (r == 0) then
      .ok { σ.store a none with
            global_count := if b.debug then wrapInt (σ.global_count - 1) else σ.global_count
            deleted := σ.deleted ++ [a] }
    else .error (.check σ)

/-- Member `RefCounted::Unref`. -/
def Unref (b : Build) (a : Addr) (σ : World) : Except Fault World :=
  match σ.ref_ a with
  | none => .error .undefined
  | some r =>
    if DCHECK b (decide (0 < r)) then
      -- `RefCountIsOne() || ref_.fetch_sub(1) == 1`, evaluated left to right
      let (last, σ₁) :=
        if RefCountIsOne a σ = some true then (true, σ)
        else (r == 1, σ.store a (some (b.wrap (r - 1))))
      if last then
        -- `DCHECK((ref_.store(0), true))` runs the store in debug builds only
        let σ₂ := if b.debug then σ₁.store a (some 0) else σ₁
        RefCounted.delete b a σ₂
      else .ok σ₁
    else .error (.check σ)

/-- Static member `RefCounted::CheckNoLiveRefCount`. -/
def CheckNoLiveRefCount (σ : World) : Bool := σ.global_count == 0

/-- Run `f` `n` times in a row, stopping at the first fault. -/
def times (f : World → Except Fault World) : Nat → World → Except Fault World
  | 0, σ => .ok σ
  | n + 1, σ =>
    match f σ with
    | .ok σ' => times f n σ'
    | .error e => .error e

/-- The round trip of claim C1 for an object at `a` that has just been
constructed in `σ`: `n` calls of `Ref` return; after them, any `k < n` calls of
`Unref` return and leave the object alive with nothing deleted, while `n` calls
of `Unref` return with the object destroyed exactly once. -/
def RoundTrip (b : Build) (a : Addr) (σ : World) (n : Nat) : Prop :=
  ∃ σ₁, times (Ref b a) n σ = .ok σ₁ ∧
    (∀ k, k < n → ∃ σ₂, times (Unref b a) k σ₁ = .ok σ₂ ∧
        σ₂.ref_ a ≠ none ∧ σ₂.deleted = σ.deleted) ∧
    (∃ σ₃, times (Unref b a) n σ₁ = .ok σ₃ ∧
        σ₃.ref_ a = none ∧ σ₃.deleted = σ.deleted ++ [a])

/-- A call made on the object under observation. -/
inductive Call where
  | Ref
  | Unref
  deriving DecidableEq, Repr

/-- Execute one call on the object at `a`. -/
def Call.exec (b : Build) (a : Addr) : Call → World → Except Fault World
  | .Ref => RefCount.Ref b a
  | .Unref => RefCount.Unref b a

/-- Execute a sequence of calls on the object at `a`, stopping at the first fault. -/
def run (b : Build) (a : Addr) : List Call → World → Except Fault World
  | [], σ => .ok σ
  | c :: cs, σ =>
    match c.exec b a σ with
    | .ok σ' => run b a cs σ'
    | .error e => .error e

/-- In the sequence `calls`, started in `σ`, the call `c` is entered in the
state `σ₁`, in which the object at `a` is alive with count `k`. -/
def Enters (b : Build) (a : Addr) (σ : World) (calls : List Call) (c : Call)
    (σ₁ : World) (k : Int) : Prop :=
  ∃ pre post, calls = pre ++ c :: post ∧ run b a pre σ = .ok σ₁ ∧ σ₁.ref_ a = some k

/-- The hypothesis of claim C5: each `Unref` is made while the count is
greater than `0`. -/
def UnrefWhilePositive (b : Build) (a : Addr) (σ : World) (calls : List Call) : Prop :=
  ∀ σ₁ k, Enters b a σ calls .Unref σ₁ k → 0 < k

/-- Each `Ref` is made while the count is below the largest value of the
counter type. -/
def RefBelowMax (b : Build) (a : Addr) (σ : World) (calls : List Call) : Prop :=
  ∀ σ₁ k, Enters b a σ calls .Ref σ₁ k → k < b.maxCount

/-- The conclusion of claim C5 for the sequence `calls` started in `σ`: every
call that is entered with the object alive is entered with a non-negative
count and nothing deleted so far; it returns; it leaves a non-negative count if
the object stays alive; it destroys the object if and only if it is an `Unref`
entered with count `1`; and the object's address is logged as deleted once if
the call destroyed it and not at all otherwise.  Moreover, after any part of
the sequence that has run, the object has been deleted at most once. -/
def CountInvariant (b : Build) (a : Addr) (σ : World) (calls : List Call) : Prop :=
  (∀ c σ₁ k, Enters b a σ calls c σ₁ k →
    0 ≤ k ∧ σ₁.deleted = σ.deleted ∧
    ∃ σ₂, c.exec b a σ₁ = .ok σ₂ ∧
      (∀ k', σ₂.ref_ a = some k' → 0 ≤ k') ∧
      (σ₂.ref_ a = none ↔ (c = .Unref ∧ k = 1)) ∧
      σ₂.deleted = if σ₂.ref_ a = none then σ.deleted ++ [a] else σ.deleted) ∧
  (∀ pre post σ', calls = pre ++ post → run b a pre σ = .ok σ' →
    σ'.deleted = σ.deleted ∨ σ'.deleted = σ.deleted ++ [a])

/-- Executable check of the two disciplines on a sequence of calls: every call
entered with the object alive passes `ok`, where `ok c k` inspects the call and
the count on entry. -/
def disciplined (b : Build) (a : Addr) (ok : Call → Int → Bool) :
    List Call → World → Bool
  | [], _ => true
  | c :: cs, σ =>
    match σ.ref_ a with
    | none => true
    | some k =>
      ok c k &&
        match c.exec b a σ with
        | .ok σ' => disciplined b a ok cs σ'
        | .error _ => true

/-- The `node_` field of the handle `h`: `none` when there is no such handle,
`some none` for `nullptr`. -/
def World.node_ (σ : World) (h : Hnd) : Option (Option Addr) := σ.handles.getD h none

/-- Assign to the `node_` field of the handle `h`. -/
def World.setNode (σ : World) (h : Hnd) (p : Option Addr) : World :=
  { σ with handles := σ.handles.set h (some p) }

/-- Member `RefHandle::is_null`. -/
def RefHandle.is_null (h : Hnd) (σ : World) : Option Bool :=
  (σ.node_ h).map (fun p => p == none)

/-- Member `RefHandle::reset`. -/
def RefHandle.reset (b : Build) (h : Hnd) (σ : World) : Except Fault World :=
  match σ.node_ h with
  | none => .error .undefined
  | some none => .ok (σ.setNode h none)
  | some (some a) =>
    match Unref b a σ with
    | .ok σ' => .ok (σ'.setNode h none)
    | .error e => .error e

/-- The default constructor `RefHandle()`: a new handle whose `node_` is
`nullptr` by its default member initialiser.  Returns the new handle. -/
def RefHandle.default (σ : World) : Hnd × World :=
  (σ.handles.length, { σ with handles := σ.handles ++ [some none] })

/-- The constructor `RefHandle(const NodeType* node)`. -/
def RefHandle.fromNode (b : Build) (node : Option Addr) (σ : World) :
    Except Fault (Hnd × World) :=
  let (h, σ₁) := RefHandle.default σ
  let σ₂ := σ₁.setNode h node
  match node with
  | none => .ok (h, σ₂)
  | some a =>
    match Ref b a σ₂ with
    | .ok σ₃ => .ok (h, σ₃)
    | .error e => .error e

/-- The statements that the copy constructor and the copy assignment share:
`this->reset(); node_ = other.node_; if (node_ != nullptr) node_->Ref();`.
`other.node_` is read after the reset. -/
def RefHandle.copyBody (b : Build) (this other : Hnd) (σ : World) : Except Fault World :=
  match RefHandle.reset b this σ with
  | .error e => .error e
  | .ok σ₁ =>
    match σ₁.node_ other with
    | none => .error .undefined
    | some p =>
      let σ₂ := σ₁.setNode this p
      match p with
      | none => .ok σ₂
      | some a => Ref b a σ₂

/-- The copy assignment `RefHandle& operator=(const RefHandle& other)`: its
statements, after which control flows off the end of the function without a
`return` statement. -/
def RefHandle.copyAssign (b : Build) (this other : Hnd) (σ : World) : Except Fault World :=
  match RefHandle.copyBody b this other σ with
  | .ok σ' => .error (.noReturn σ')
  | .error e => .error e

/-- The copy constructor `RefHandle(const RefHandle& other)`: the shared
statements, run on a new handle. -/
def RefHandle.copyConstruct (b : Build) (other : Hnd) (σ : World) :
    Except Fault (Hnd × World) :=
  let (h, σ₁) := RefHandle.default σ
  match RefHandle.copyBody b h other σ₁ with
  | .ok σ₂ => .ok (h, σ₂)
  | .error e => .error e

/-- The statements that the move constructor and the move assignment share:
`node_ = other.node_; other.node_ = nullptr;`. -/
def RefHandle.moveBody (this other : Hnd) (σ : World) : Except Fault World :=
  match σ.node_ this, σ.node_ other with
  | some _, some p => .ok ((σ.setNode this p).setNode other none)
  | _, _ => .error .undefined

/-- The move assignment `RefHandle& operator=(RefHandle&& other)`: its
statements, after which control flows off the end of the function without a
`return` statement. -/
def RefHandle.moveAssign (this other : Hnd) (σ : World) : Except Fault World :=
  match RefHandle.moveBody this other σ with
  | .ok σ' => .error (.noReturn σ')
  | .error e => .error e

/-- The move constructor `RefHandle(RefHandle&& other)`: the shared
statements, run on a new handle. -/
def RefHandle.moveConstruct (other : Hnd) (σ : World) : Except Fault (Hnd × World) :=
  let (h, σ₁) := RefHandle.default σ
  match RefHandle.moveBody h other σ₁ with
  | .ok σ₂ => .ok (h, σ₂)
  | .error e => .error e

/-- The destructor `~RefHandle`: `reset()`, after which the handle is gone. -/
def RefHandle.destruct (b : Build) (h : Hnd) (σ : World) : Except Fault World :=
  match RefHandle.reset b h σ with
  | .ok σ₁ => .ok { σ₁ with handles := σ₁.handles.set h none }
  | .error e => .error e

/-- The referent `p` of a handle can be released by `reset()`: it is null, or
it is a live object on which `Unref` passes its debug check. -/
def Releasable (b : Build) (σ : World) : Option Addr → Prop
  | none => True
  | some a => ∃ c, σ.ref_ a = some c ∧ (0 < c ∨ b.debug = false)

/-- Handle/count consistency: the count of every live object equals the number
of handles whose `node_` points to it. -/
def Consistent (σ : World) : Prop :=
  ∀ a c, σ.ref_ a = some c → c = (σ.handles.count (some (some a)) : Int)

/-- Two objects at addresses `0` and `1`, each with count `1`, and two
handles: handle `0` points to object `0`, handle `1` to object `1`. -/
def World.twoOwners : World :=
  { ref_ := fun a => if a = 0 ∨ a = 1 then some 1 else none
    handles := [some (some 0), some (some 1)]
    global_count := 2
    deleted := [] }

/-- One object at address `0` with count `2`, and two handles that both point
to it. -/
def World.shared : World :=
  { ref_ := fun a => if a = 0 then some 2 else none
    handles := [some (some 0), some (some 0)]
    global_count := 1
    deleted := [] }

/-- One object at address `0` with count `1`, held by handle `0`; handle `1`
is null. -/
def World.ownerAndNull : World :=
  { ref_ := fun a => if a = 0 then some 1 else none
    handles := [some (some 0), some none]
    global_count := 1
    deleted := [] }

/-- One object at address `0` whose count is the largest value of a 32-bit
counter, and one handle that refers to it. -/
def World.saturated : World :=
  { ref_ := fun a => if a = 0 then some (2 ^ 31 - 1) else none
    handles := [some (some 0)]
    global_count := 1
    deleted := [] }

/-- A freshly constructed object at address `0` in the empty program state. -/
def World.fresh (b : Build) : World :=
  { World.init.store 0 (some 0) with
    global_count := if b.debug then wrapInt 1 else 0 }

end RefCount

/-!
# Part II: the fusion pass

`FuseTensorExprs` (`torch/csrc/jit/passes/tensorexpr_fuser.h`) is exercised by
`test_te_fuser_pass.cpp` but is not among the sources, so the pass below is
modelled from the specification (sections 3, 4.1 to 4.3 and 6).  Three things
that the specification leaves open are made explicit:

* the operator allow-list and the device feature gate are fields of `Config`;
* scalar and list operands (`int`, `Tensor[]` in the test graphs) carry no
  tensor; section 4.2 collects "every tensor-typed Value", and such operands
  are `ValueType.other`, which neither predicate inspects;
* section 4.3 says that a group "never merges through" a boundary node and
  section 4.1 that it "may not silently cross over one", without fixing when a
  producer that sits on the far side of a mutating operator may still join
  the group.  That legality test is the field `mayAbsorb` of `Config`; the
  theorems about the pass hold for every choice of it.
-/

namespace Fuser

/-- Modelled from the spec: the device of a tensor (sections 3 and 9), as the
closed variant `cpu` or `cuda:N`; the IR header that declares it is not among
the sources. -/
inductive Device where
  | cpu
  | cuda (index : Nat)
  deriving DecidableEq, Repr

/-- Modelled from the spec: the TensorType annotation of section 3 (the IR
header is not among the sources): device and rank, each possibly unknown. -/
structure TensorType where
  device : Option Device
  rank : Option Nat
  deriving DecidableEq, Repr

/-- Modelled from the spec: what a value of the IR (not among the sources)
carries: no tensor at all (a scalar or a list), or a tensor with an optional
TensorType annotation. -/
inductive ValueType where
  | other
  | tensor (t : Option TensorType)
  deriving DecidableEq, Repr

/-- Modelled from the spec: a Value of section 3 (the IR is not among the
sources): its name and its type. -/
structure Value where
  name : String
  type : ValueType
  deriving DecidableEq, Repr

/-- Modelled from the spec: a Node of section 3 (the IR is not among the
sources): operator identifier, ordered inputs, ordered outputs. -/
structure Node where
  kind : String
  inputs : List Value
  outputs : List Value
  deriving DecidableEq, Repr

/-- Modelled from the spec: a Graph of section 3 (the IR is not among the
sources): graph-level inputs, the nodes in topological order, graph-level
outputs. -/
structure Graph where
  inputs : List Value
  nodes : List Node
  outputs : List Value
  deriving DecidableEq, Repr

/-- The known device of a value, if it is a tensor with one. -/
def Value.device (v : Value) : Option Device :=
  match v.type with
  | .tensor (some t) => t.device
  | _ => none

/-- Modelled from the spec: the per-value test of `IsFusible` (the fuser is not
among the sources).  A tensor value is eligible when it has a TensorType, a
known device and a known rank other than `0` (section 4.1, first item; section
4.3, edge cases). -/
def Value.eligible (v : Value) : Bool :=
  match v.type with
  | .other => true
  | .tensor none => false
  | .tensor (some t) =>
    t.device.isSome &&
      match t.rank with
      | some r => r != 0
      | none => false

/-- All values touching a node: its inputs and its outputs. -/
def Node.values (n : Node) : List Value := n.inputs ++ n.outputs

/-- The known devices of the tensor values touching a node. -/
def Node.devices (n : Node) : List Device := n.values.filterMap Value.device

/-- Modelled from the spec: the test of the fuser for in-place operator variants,
which are recognised by the trailing mutation marker of their name (section
4.1, second item). -/
def isMutating (kind : String) : Bool := kind.data.getLast? == some '_'

/-- The node at position `i`, if any. -/
def Graph.node? (g : Graph) (i : Nat) : Option Node := g.nodes[i]?

/-- The known devices of the tensor values touching the node at position `i`. -/
def Graph.devicesAt (g : Graph) (i : Nat) : List Device :=
  match g.node? i with
  | some n => n.devices
  | none => []

/-- Node `j` is a direct producer of node `i`. -/
def Graph.feeds (g : Graph) (j i : Nat) : Bool :=
  match g.node? j, g.node? i with
  | some p, some c => p.outputs.any (fun v => c.inputs.any (fun w => v.name == w.name))
  | _, _ => false

/-- Modelled from the spec: what the pass is configured with, all of it
external to the sources.  `supported` is the operator allow-list of section
4.1, `canFuseOnDevice` the device feature gate of section 6, `min_group_size`
the tunable of section 4.3, and `mayAbsorb g j grp` the legality test that the
specification leaves open: whether the producer at position `j` may be moved
next to the group `grp` (whose first element is the node the group was started
from) across the nodes in between. -/
structure Config where
  supported : String → Bool
  canFuseOnDevice : Device → Bool
  min_group_size : Nat
  mayAbsorb : Graph → Nat → List Nat → Bool

/-- Modelled from the spec: section 4.1, `IsFusible(node)`.  False if a tensor
value touching the node lacks a TensorType, a known device or a non-zero known
rank; false for an in-place operator; false outside the allow-list. -/
def IsFusible (cfg : Config) (n : Node) : Bool :=
  n.values.all Value.eligible && !isMutating n.kind && cfg.supported n.kind

/-- No two devices of the list differ. -/
def allSame (ds : List Device) : Bool := ds.all (fun d => ds.all (fun e => d == e))

/-- Modelled from the spec: section 4.2, `DevicesConsistent(a, b)` for two
sets of nodes given by their positions.  Collects the known device of every
tensor value touching a node of `a` or of `b`, and returns false if any two of
the collected devices differ. -/
def DevicesConsistent (g : Graph) (a b : List Nat) : Bool :=
  allSame ((a ++ b).flatMap g.devicesAt)

/-- Modelled from the spec: the per-node test of the fuser (not among the
sources).  The node at `i` may be part of a group at all: it passes the
fusibility predicate, and every device it touches passes the feature gate of
section 6. -/
def candidate (cfg : Config) (g : Graph) (i : Nat) : Bool :=
  match g.node? i with
  | some n => IsFusible cfg n && n.devices.all cfg.canFuseOnDevice
  | none => false

/-- Modelled from the spec: section 4.3, step 3, of the fuser (not among the
sources).  The producers that the group `grp` can absorb next, nearest first:
direct producers of a member that are in no group yet, pass the fusibility
predicate and the device gate, are device-consistent with the group, and may
legally be moved to it. -/
def absorbable (cfg : Config) (g : Graph) (taken grp : List Nat) : List Nat :=
  (List.range g.nodes.length).reverse.filter fun j =>
    !grp.contains j && !taken.contains j && grp.any (fun i => g.feeds j i) &&
      candidate cfg g j && DevicesConsistent g [j] grp && cfg.mayAbsorb g j grp

/-- Modelled from the spec: section 4.3, step 3, of the fuser (not among the
sources).  Grow a group to its fixpoint, one absorbed producer at a time.
Each round adds a node that is not yet in the group, so as many rounds as the
graph has nodes are enough. -/
def grow (cfg : Config) (g : Graph) (taken : List Nat) : Nat → List Nat → List Nat
  | 0, grp => grp
  | fuel + 1, grp =>
    match absorbable cfg g taken grp with
    | [] => grp
    | j :: _ => grow cfg g taken fuel (grp ++ [j])

/-- Modelled from the spec: section 4.3, step 2, of the fuser (not among the
sources).  The node at `i` can start a group: it is a candidate, and the
devices of the tensor values it touches agree with each other.  The members of
a group are "all mutually device-consistent" (section 3), a group is started
"on a device" (section 6), and one differently-deviced input "prevents any
grouping node from forming" (section 8, item 6); the last test graphs of
`testFuserPass_Multidevice` expect the same. -/
def startable (cfg : Config) (g : Graph) (i : Nat) : Bool :=
  candidate cfg g i && DevicesConsistent g [i] [i]

/-- Progress of the traversal: the positions already dealt with, and the
groups accepted so far in the order of their creation. -/
structure Progress where
  taken : List Nat
  groups : List (List Nat)
  deriving DecidableEq, Repr

/-- Modelled from the spec: section 4.3, steps 2 to 5, of the fuser (not among
the sources).  Visit the node at `i`.  A node that was absorbed earlier is
skipped.  A node that passes the fusibility predicate and the device gate, and
whose own devices agree, starts a group, which is grown to its fixpoint and is
accepted only if it has at least `min_group_size` nodes; the nodes of a
discarded group remain unfused. -/
def visit (cfg : Config) (g : Graph) (st : Progress) (i : Nat) : Progress :=
  if st.taken.contains i then st
  else if startable cfg g i then
    let grp := grow cfg g st.taken g.nodes.length [i]
    if cfg.min_group_size ≤ grp.length then
      { taken := grp ++ st.taken, groups := st.groups ++ [grp] }
    else
      { taken := grp ++ st.taken, groups := st.groups }
  else { st with taken := i :: st.taken }

/-- Modelled from the spec: section 4.3, step 1, of the fuser (not among the
sources).  The groups formed by the pass: the nodes are visited in reverse
topological order, consumers before producers. -/
def partition (cfg : Config) (g : Graph) : List (List Nat) :=
  ((List.range g.nodes.length).reverse.foldl (visit cfg g) ⟨[], []⟩).groups

/-- Modelled from the spec: a node of the graph rewritten by the fuser (not
among the sources): an original node that was left alone, or the grouping
node `prim::TensorExprGroup_k` wrapping the original nodes at the positions
`members` (step 6: `k` counts the groups of the graph). -/
inductive Item where
  | plain (i : Nat)
  | group (k : Nat) (members : List Nat)
  deriving DecidableEq, Repr

/-- Modelled from the spec: section 4.3, step 5, of the fuser (not among the
sources).  What becomes of the original node at `i`: it stays if it is in no
group; the first node of group `k` (the one the group was started from)
becomes the grouping node; the other members are moved inside it. -/
def place (groups : List (List Nat)) (i : Nat) : Option Item :=
  match groups.findIdx? (fun grp => grp.contains i) with
  | none => some (.plain i)
  | some k =>
    let grp := groups.getD k []
    if grp.head? = some i then some (.group k grp) else none

/-- Modelled from the spec: section 4.3, `FuseTensorExprs(graph,
min_group_size)`; the pass itself is not among the sources.  Returns the node
sequence of the rewritten graph. -/
def FuseTensorExprs (cfg : Config) (g : Graph) : List Item :=
  (List.range g.nodes.length).filterMap (place (partition cfg g))

/-- What the pass guarantees of every group it grows: the members are
distinct positions of the graph, each is a candidate, and no two devices
touched by members differ. -/
def GoodGroup (cfg : Config) (g : Graph) (grp : List Nat) : Prop :=
  grp.Nodup ∧ (∀ i ∈ grp, i < g.nodes.length ∧ candidate cfg g i = true) ∧
    ∀ i ∈ grp, ∀ j ∈ grp, ∀ d ∈ g.devicesAt i, ∀ e ∈ g.devicesAt j, d = e

/-- A reading under which an in-place operator is a boundary only for the
state it mutates (section 9: it "mutates its first operand"): a producer is
kept out of the group if, between it and the node the group was started from,
there is an in-place operator whose first operand the producer reads or
writes. -/
def noReorderAcrossWrite : Graph → Nat → List Nat → Bool := fun g j grp =>
  match grp.head?, g.node? j with
  | some s, some p =>
    (List.range g.nodes.length).all fun m =>
      !(decide (j < m) && decide (m < s) &&
        match g.node? m with
        | some n =>
          isMutating n.kind &&
            match n.inputs.head? with
            | some w => p.values.any (fun v => v.name == w.name)
            | none => false
        | none => false)
  | _, _ => false

/-- Whether a node of the rewritten graph is a grouping node. -/
def Item.isGroup : Item → Bool
  | .plain _ => false
  | .group _ _ => true

/-- The type `Float(n:1, device=dev)` of the test graphs: a tensor of rank 1
on a known device. -/
def vec (dev : Device) : ValueType := .tensor (some ⟨some dev, some 1⟩)

/-- The type `Tensor` of the test graphs: a tensor without device or shape. -/
def unrefined : ValueType := .tensor none

/-- Configuration of the tests: the operators used by the test graphs are on
the allow-list and fusion is enabled on every device (`WithCPUFuser cf`). -/
def testConfig (min_group_size : Nat) (mayAbsorb : Graph → Nat → List Nat → Bool) : Config :=
  { supported := fun k =>
      ["aten::mul", "aten::add", "aten::cat", "prim::ListConstruct"].contains k
    canFuseOnDevice := fun _ => true
    min_group_size := min_group_size
    mayAbsorb := mayAbsorb }

/-- The graph of `testFuserPass_1`. -/
def testFuserPass_1 : Graph :=
  { inputs := [⟨"%0", vec .cpu⟩, ⟨"%1", vec .cpu⟩]
    nodes :=
      [ ⟨"prim::Constant", [], [⟨"%12", .other⟩]⟩,
        ⟨"aten::mul", [⟨"%0", vec .cpu⟩, ⟨"%1", vec .cpu⟩], [⟨"%2.1", vec .cpu⟩]⟩,
        ⟨"aten::mul", [⟨"%2.1", vec .cpu⟩, ⟨"%1", vec .cpu⟩], [⟨"%2", vec .cpu⟩]⟩,
        ⟨"aten::add_", [⟨"%2", vec .cpu⟩, ⟨"%1", vec .cpu⟩, ⟨"%12", .other⟩],
          [⟨"%3", vec .cpu⟩]⟩,
        ⟨"aten::mul", [⟨"%2", vec .cpu⟩, ⟨"%1", vec .cpu⟩], [⟨"%4", vec .cpu⟩]⟩,
        ⟨"aten::add", [⟨"%2", vec .cpu⟩, ⟨"%4", vec .cpu⟩, ⟨"%12", .other⟩],
          [⟨"%5", vec .cpu⟩]⟩ ]
    outputs := [⟨"%5", vec .cpu⟩] }

/-- The graph of `testFuserPass_2`. -/
def testFuserPass_2 : Graph :=
  { inputs := [⟨"%0", vec .cpu⟩, ⟨"%1", vec .cpu⟩]
    nodes :=
      [ ⟨"prim::Constant", [], [⟨"%12", .other⟩]⟩,
        ⟨"aten::mul", [⟨"%0", vec .cpu⟩, ⟨"%1", vec .cpu⟩], [⟨"%a", vec .cpu⟩]⟩,
        ⟨"aten::add", [⟨"%0", vec .cpu⟩, ⟨"%1", vec .cpu⟩, ⟨"%12", .other⟩],
          [⟨"%b", vec .cpu⟩]⟩,
        ⟨"aten::add_", [⟨"%b", vec .cpu⟩, ⟨"%1", vec .cpu⟩, ⟨"%12", .other⟩],
          [⟨"%c", vec .cpu⟩]⟩,
        ⟨"aten::mul", [⟨"%c", vec .cpu⟩, ⟨"%a", vec .cpu⟩], [⟨"%d", vec .cpu⟩]⟩ ]
    outputs := [⟨"%d", vec .cpu⟩] }

/-- The graph of `testFuserPass_3`. -/
def testFuserPass_3 : Graph :=
  { inputs := [⟨"%x", vec .cpu⟩, ⟨"%y", vec .cpu⟩]
    nodes := [⟨"aten::mul", [⟨"%x", vec .cpu⟩, ⟨"%y", vec .cpu⟩], [⟨"%r", vec .cpu⟩]⟩]
    outputs := [⟨"%r", vec .cpu⟩] }

/-- The first graph of `testFuserPass_Multidevice`: three CPU tensors are
concatenated. -/
def testFuserPass_Multidevice_1 : Graph :=
  { inputs := [⟨"%x", vec .cpu⟩, ⟨"%y", vec .cpu⟩, ⟨"%z", vec .cpu⟩]
    nodes :=
      [ ⟨"prim::Constant", [], [⟨"%dim", .other⟩]⟩,
        ⟨"prim::ListConstruct", [⟨"%x", vec .cpu⟩, ⟨"%y", vec .cpu⟩, ⟨"%z", vec .cpu⟩],
          [⟨"%xyz_list", .other⟩]⟩,
        ⟨"aten::cat", [⟨"%xyz_list", .other⟩, ⟨"%dim", .other⟩], [⟨"%cat", unrefined⟩]⟩ ]
    outputs := [⟨"%cat", unrefined⟩] }

/-- The second graph of `testFuserPass_Multidevice`: as the first, with `%y`
on `cuda:0`. -/
def testFuserPass_Multidevice_2 : Graph :=
  { inputs := [⟨"%x", vec .cpu⟩, ⟨"%y", vec (.cuda 0)⟩, ⟨"%z", vec .cpu⟩]
    nodes :=
      [ ⟨"prim::Constant", [], [⟨"%dim", .other⟩]⟩,
        ⟨"prim::ListConstruct",
          [⟨"%x", vec .cpu⟩, ⟨"%y", vec (.cuda 0)⟩, ⟨"%z", vec .cpu⟩],
          [⟨"%xyz_list", .other⟩]⟩,
        ⟨"aten::cat", [⟨"%xyz_list", .other⟩, ⟨"%dim", .other⟩], [⟨"%cat", unrefined⟩]⟩ ]
    outputs := [⟨"%cat", unrefined⟩] }

/-- The type `Float(device=cuda)` of `testFuserPass_0DimInput`: a tensor of
rank 0 (the device is written without an index in the test; index `0` here). -/
def scalarOn (dev : Device) : ValueType := .tensor (some ⟨some dev, some 0⟩)

/-- The graph of `testFuserPass_0DimInput`. -/
def testFuserPass_0DimInput : Graph :=
  { inputs := [⟨"%x", scalarOn (.cuda 0)⟩, ⟨"%y", scalarOn (.cuda 0)⟩]
    nodes :=
      [ ⟨"prim::Constant", [], [⟨"%one", .other⟩]⟩,
        ⟨"aten::mul", [⟨"%x", scalarOn (.cuda 0)⟩, ⟨"%y", scalarOn (.cuda 0)⟩],
          [⟨"%a", scalarOn (.cuda 0)⟩]⟩,
        ⟨"aten::add", [⟨"%x", scalarOn (.cuda 0)⟩, ⟨"%a", scalarOn (.cuda 0)⟩, ⟨"%one", .other⟩],
          [⟨"%b", scalarOn (.cuda 0)⟩]⟩ ]
    outputs := [⟨"%b", scalarOn (.cuda 0)⟩] }

/-- The graph of `testFuserPass_UnfusibleDevice`. -/
def testFuserPass_UnfusibleDevice : Graph :=
  { inputs := [⟨"%x", vec .cpu⟩, ⟨"%y", vec .cpu⟩]
    nodes := [⟨"aten::mul", [⟨"%x", vec .cpu⟩, ⟨"%y", vec .cpu⟩], [⟨"%a", vec .cpu⟩]⟩]
    outputs := [⟨"%a", vec .cpu⟩] }

/-- The graph of `testFuserPass_UnknownShapes`. -/
def testFuserPass_UnknownShapes : Graph :=
  { inputs := [⟨"%x", unrefined⟩, ⟨"%y", unrefined⟩]
    nodes :=
      [ ⟨"aten::mul", [⟨"%x", unrefined⟩, ⟨"%y", unrefined⟩], [⟨"%a", unrefined⟩]⟩,
        ⟨"aten::mul", [⟨"%x", unrefined⟩, ⟨"%a", unrefined⟩], [⟨"%b", unrefined⟩]⟩ ]
    outputs := [⟨"%a", unrefined⟩] }

/-- The third graph of `testFuserPass_Multidevice`. -/
def testFuserPass_Multidevice_3 : Graph :=
  { inputs := [⟨"%x", vec .cpu⟩, ⟨"%y", vec .cpu⟩, ⟨"%z", vec (.cuda 0)⟩]
    nodes :=
      [ ⟨"prim::Constant", [], [⟨"%dim", .other⟩]⟩,
        ⟨"prim::ListConstruct", [⟨"%x", vec .cpu⟩, ⟨"%y", vec .cpu⟩],
          [⟨"%xy_list", .other⟩]⟩,
        ⟨"aten::cat", [⟨"%xy_list", .other⟩, ⟨"%dim", .other⟩], [⟨"%xy_cat", unrefined⟩]⟩,
        ⟨"aten::mul", [⟨"%xy_cat", unrefined⟩, ⟨"%z", vec (.cuda 0)⟩], [⟨"%r", unrefined⟩]⟩ ]
    outputs := [⟨"%r", unrefined⟩] }

/-- The fourth graph of `testFuserPass_Multidevice`. -/
def testFuserPass_Multidevice_4 : Graph :=
  { inputs := [⟨"%x", vec .cpu⟩, ⟨"%y", vec .cpu⟩, ⟨"%z", vec (.cuda 0)⟩]
    nodes :=
      [ ⟨"aten::mul", [⟨"%z", vec (.cuda 0)⟩, ⟨"%z", vec (.cuda 0)⟩], [⟨"%z2", unrefined⟩]⟩,
        ⟨"prim::Constant", [], [⟨"%dim", .other⟩]⟩,
        ⟨"prim::ListConstruct", [⟨"%x", vec .cpu⟩, ⟨"%y", vec .cpu⟩, ⟨"%z2", unrefined⟩],
          [⟨"%xy_list", .other⟩]⟩,
        ⟨"aten::cat", [⟨"%xy_list", .other⟩, ⟨"%dim", .other⟩], [⟨"%cat", unrefined⟩]⟩ ]
    outputs := [⟨"%cat", unrefined⟩] }

/-- The fifth graph of `testFuserPass_Multidevice`. -/
def testFuserPass_Multidevice_5 : Graph :=
  { inputs := [⟨"%x", vec .cpu⟩, ⟨"%y", vec (.cuda 0)⟩]
    nodes :=
      [⟨"aten::mul", [⟨"%x", vec .cpu⟩, ⟨"%y", vec (.cuda 0)⟩], [⟨"%r", unrefined⟩]⟩]
    outputs := [⟨"%r", unrefined⟩] }

/-- The sixth graph of `testFuserPass_Multidevice`. -/
def testFuserPass_Multidevice_6 : Graph :=
  { inputs := [⟨"%x", vec (.cuda 0)⟩, ⟨"%y", vec (.cuda 1)⟩, ⟨"%z", vec .cpu⟩]
    nodes :=
      [ ⟨"aten::mul", [⟨"%x", vec (.cuda 0)⟩, ⟨"%x", vec (.cuda 0)⟩], [⟨"%x2", unrefined⟩]⟩,
        ⟨"aten::mul", [⟨"%y", vec (.cuda 1)⟩, ⟨"%y", vec (.cuda 1)⟩], [⟨"%y2", unrefined⟩]⟩,
        ⟨"aten::mul", [⟨"%z", vec .cpu⟩, ⟨"%z", vec .cpu⟩], [⟨"%z2", unrefined⟩]⟩ ]
    outputs := [⟨"%x2", unrefined⟩, ⟨"%y2", unrefined⟩, ⟨"%z2", unrefined⟩] }

/-- The configuration `c` with fusion on the CPU disabled (`WithCPUFuser cf(false)`). -/
def withoutCPUFuser (c : Config) : Config :=
  { c with canFuseOnDevice := fun d => d != .cpu }

/-- A graph with a chain of two `aten::mul` before an in-place operator and a
chain of two `aten::mul` after it; the in-place operator mutates `%w`, which no
other node touches, and the second chain also consumes the result of the first. -/
def twoChains : Graph :=
  { inputs := [⟨"%0", vec .cpu⟩, ⟨"%1", vec .cpu⟩, ⟨"%w", vec .cpu⟩]
    nodes :=
      [ ⟨"aten::mul", [⟨"%0", vec .cpu⟩, ⟨"%1", vec .cpu⟩], [⟨"%p1", vec .cpu⟩]⟩,
        ⟨"aten::mul", [⟨"%p1", vec .cpu⟩, ⟨"%1", vec .cpu⟩], [⟨"%p2", vec .cpu⟩]⟩,
        ⟨"aten::mul_", [⟨"%w", vec .cpu⟩, ⟨"%1", vec .cpu⟩], [⟨"%m", vec .cpu⟩]⟩,
        ⟨"aten::mul", [⟨"%p2", vec .cpu⟩, ⟨"%1", vec .cpu⟩], [⟨"%q1", vec .cpu⟩]⟩,
        ⟨"aten::mul", [⟨"%q1", vec .cpu⟩, ⟨"%p2", vec .cpu⟩], [⟨"%q2", vec .cpu⟩]⟩ ]
    outputs := [⟨"%q2", vec .cpu⟩] }

/-- Literal step 3: every fusible, device-consistent direct producer is absorbed. -/
def anyProducer : Graph → Nat → List Nat → Bool := fun _ _ _ => true

/-- The strict reading of the boundary rule: a producer is absorbed only if no
in-place operator sits between it and the node the group was started from. -/
def noBarrierBetween : Graph → Nat → List Nat → Bool := fun g j grp =>
  match grp.head? with
  | none => false
  | some s =>
    (List.range g.nodes.length).all fun m =>
      !(decide (j < m) && decide (m < s) &&
        match g.node? m with
        | some n => isMutating n.kind
        | none => false)

end Fuser

/-! ## Theorems -/

namespace RefCount

theorem wrap_of_range (b : Build) (x : Int) (h₁ : -b.half ≤ x) (h₂ : x < b.half) :
    b.wrap x = x := by
  unfold Build.wrap
  have h : (x + b.half) % (2 * b.half) = x + b.half :=
    Int.emod_eq_of_lt (by omega) (by omega)
  omega

theorem half_pos (b : Build) : 0 < b.half := by
  unfold Build.half
  positivity

theorem Ref_eq (b : Build) (a : Addr) (σ : World) (r : Int) (h : σ.ref_ a = some r)
    (hr : 0 ≤ r ∨ b.debug = false) :
    Ref b a σ = .ok (σ.store a (some (b.wrap (r + 1)))) := by
  unfold Ref
  rw [h]
  have : DCHECK b (decide (0 ≤ r)) = true := by
    rcases hr with hr | hr
    · simp [DCHECK, hr]
    · simp [DCHECK, hr]
  simp [this]

theorem store_ref_same (σ : World) (a : Addr) (v : Option Int) :
    (σ.store a v).ref_ a = v := by
  simp [World.store]

theorem store_ref_other (σ : World) (a a' : Addr) (v : Option Int) (h : a' ≠ a) :
    (σ.store a v).ref_ a' = σ.ref_ a' := by
  simp [World.store, Function.update, h]

theorem Unref_last (b : Build) (a : Addr) (σ : World) (h : σ.ref_ a = some 1) :
    ∃ σ', Unref b a σ = .ok σ' ∧ σ'.ref_ a = none ∧ σ'.deleted = σ.deleted ++ [a] ∧
      σ'.handles = σ.handles ∧ ∀ a', a' ≠ a → σ'.ref_ a' = σ.ref_ a' := by
  unfold Unref
  rw [h]
  cases hd : b.debug
  · simp [DCHECK, hd, RefCountIsOne, RefCounted.delete, h, World.store, Function.update]
    intro a' ha'
    simp [ha']
  · simp [DCHECK, hd, RefCountIsOne, RefCounted.delete, h, World.store, Function.update]
    intro a' ha'
    simp [ha']

theorem Unref_more (b : Build) (a : Addr) (σ : World) (r : Int) (h : σ.ref_ a = some r)
    (h1 : r ≠ 1) (hr : 0 < r ∨ b.debug = false) :
    Unref b a σ = .ok (σ.store a (some (b.wrap (r - 1)))) := by
  unfold Unref
  rw [h]
  have : DCHECK b (decide (0 < r)) = true := by
    rcases hr with hr | hr
    · simp [DCHECK, hr]
    · simp [DCHECK, hr]
  simp [this, h1, RefCountIsOne, h]

theorem wrap_add (b : Build) (x y : Int) : b.wrap (b.wrap x + y) = b.wrap (x + y) := by
  unfold Build.wrap
  have h : ((x + b.half) % (2 * b.half) - b.half + y + b.half) % (2 * b.half)
      = (x + y + b.half) % (2 * b.half) := by
    have e₁ : (x + b.half) % (2 * b.half) - b.half + y + b.half
        = (x + b.half) % (2 * b.half) + y := by ring
    have e₂ : x + y + b.half = x + b.half + y := by ring
    rw [e₁, e₂, Int.emod_add_emod]
  rw [h]

theorem times_Ref (b : Build) (a : Addr) (n : Nat) :
    ∀ (σ : World) (r : Int), σ.ref_ a = some r → 0 ≤ r → r + n ≤ b.maxCount →
      ∃ σ', times (Ref b a) n σ = .ok σ' ∧ σ'.ref_ a = some (r + n) ∧
        σ'.deleted = σ.deleted := by
  induction n with
  | zero => intro σ r h _ _; exact ⟨σ, rfl, by simpa using h, rfl⟩
  | succ n ih =>
    intro σ r h h0 hmax
    have hh := half_pos b
    have hmax' : r + (n : Int) + 1 ≤ b.half - 1 := by
      have := hmax; unfold Build.maxCount at this; push_cast at this; omega
    have hw : b.wrap (r + 1) = r + 1 := wrap_of_range b _ (by omega) (by omega)
    obtain ⟨σ', e, hr, hd⟩ := ih (σ.store a (some (r + 1))) (r + 1)
      (store_ref_same _ _ _) (by omega) (by unfold Build.maxCount; omega)
    refine ⟨σ', ?_, ?_, ?_⟩
    · simp only [times, Ref_eq b a σ r h (Or.inl h0), hw]
      exact e
    · rw [hr]; push_cast; congr 1; ring
    · rw [hd]; rfl

theorem times_Ref_release (b : Build) (hb : b.debug = false) (a : Addr) (n : Nat) :
    ∀ (σ : World) (r : Int), σ.ref_ a = some r → b.wrap r = r →
      ∃ σ', times (Ref b a) n σ = .ok σ' ∧ σ'.ref_ a = some (b.wrap (r + n)) := by
  induction n with
  | zero =>
    intro σ r h hr
    exact ⟨σ, rfl, by simpa [hr] using h⟩
  | succ n ih =>
    intro σ r h hr
    obtain ⟨σ', e, hr'⟩ := ih (σ.store a (some (b.wrap (r + 1)))) (b.wrap (r + 1))
      (store_ref_same _ _ _) (by simpa using wrap_add b (r + 1) 0)
    refine ⟨σ', ?_, ?_⟩
    · simp only [times, Ref_eq b a σ r h (Or.inr hb)]
      exact e
    · rw [hr', wrap_add]; push_cast; congr 2; ring

theorem times_Unref_lt (b : Build) (a : Addr) (k : Nat) :
    ∀ (σ : World) (r : Int), σ.ref_ a = some r → (k : Int) < r → r ≤ b.maxCount →
      ∃ σ', times (Unref b a) k σ = .ok σ' ∧ σ'.ref_ a = some (r - k) ∧
        σ'.deleted = σ.deleted := by
  induction k with
  | zero => intro σ r h _ _; exact ⟨σ, rfl, by simpa using h, rfl⟩
  | succ k ih =>
    intro σ r h hk hmax
    have hh := half_pos b
    unfold Build.maxCount at hmax
    push_cast at hk
    have hw : b.wrap (r - 1) = r - 1 := wrap_of_range b _ (by omega) (by omega)
    obtain ⟨σ', e, hr, hd⟩ := ih (σ.store a (some (r - 1))) (r - 1)
      (store_ref_same _ _ _) (by omega) (by unfold Build.maxCount; omega)
    refine ⟨σ', ?_, ?_, ?_⟩
    · simp only [times, Unref_more b a σ r h (by omega) (Or.inl (by omega)), hw]
      exact e
    · rw [hr]; push_cast; congr 1; ring
    · rw [hd]; rfl

theorem times_succ_last (f : World → Except Fault World) (n : Nat) :
    ∀ (σ σ' : World), times f n σ = .ok σ' → times f (n + 1) σ = f σ' := by
  induction n with
  | zero =>
    intro σ σ' h
    simp only [times, Except.ok.injEq] at h
    subst h
    simp only [times]
    cases f σ <;> rfl
  | succ n ih =>
    intro σ σ' h
    rw [times] at h
    rw [times]
    cases hf : f σ with
    | error e => rw [hf] at h; cases h
    | ok σ₁ =>
      rw [hf] at h
      exact ih σ₁ σ' h

theorem times_Unref_all (b : Build) (a : Addr) (n : Nat) (σ : World)
    (h : σ.ref_ a = some ((n : Int) + 1)) (hmax : (n : Int) + 1 ≤ b.maxCount) :
    ∃ σ', times (Unref b a) (n + 1) σ = .ok σ' ∧ σ'.ref_ a = none ∧
      σ'.deleted = σ.deleted ++ [a] := by
  obtain ⟨σ₁, e₁, hr₁, hd₁⟩ := times_Unref_lt b a n σ _ h (by omega) hmax
  have h1 : σ₁.ref_ a = some 1 := by rw [hr₁]; congr 1; ring
  obtain ⟨σ₂, e₂, hr₂, hd₂, _⟩ := Unref_last b a σ₁ h1
  exact ⟨σ₂, by rw [times_succ_last _ n σ σ₁ e₁, e₂], hr₂, by rw [hd₂, hd₁]⟩

theorem new_fresh (b : Build) (a : Addr) (σ₀ σ : World) (h : RefCounted.new b a σ₀ = .ok σ) :
    σ.ref_ a = some 0 ∧ σ.deleted = σ₀.deleted ∧ σ.handles = σ₀.handles ∧
      ∀ a', a' ≠ a → σ.ref_ a' = σ₀.ref_ a' := by
  unfold RefCounted.new at h
  cases h0 : σ₀.ref_ a with
  | some r => rw [h0] at h; cases h
  | none =>
    rw [h0] at h
    simp only [Except.ok.injEq] at h
    subst h
    refine ⟨by simp [World.store], rfl, rfl, ?_⟩
    intro a' ha'
    simp [World.store, Function.update, ha']

/-- C1 (amended): for an object freshly constructed at any free address, and
every `n` with `1 ≤ n ≤ maxCount` (the largest value of the counter type), `n`
calls of `Ref` followed by `n` calls of `Unref` all return, the object is
destroyed exactly once, by the `n`-th `Unref`, and it is still alive with
nothing deleted after any smaller number of `Unref` calls.  This holds in debug
and in release builds. -/
theorem C1_ref_unref_round_trip (b : Build) (a : Addr) (σ₀ σ : World) (n : Nat)
    (hnew : RefCounted.new b a σ₀ = .ok σ) (h1 : 1 ≤ n) (hmax : (n : Int) ≤ b.maxCount) :
    RoundTrip b a σ n := by
  obtain ⟨h0, -, -, -⟩ := new_fresh b a σ₀ σ hnew
  obtain ⟨σ₁, e₁, hr₁, hd₁⟩ := times_Ref b a n σ 0 h0 le_rfl (by omega)
  have hr₁' : σ₁.ref_ a = some (n : Int) := by rw [hr₁]; congr 1; ring
  refine ⟨σ₁, e₁, ?_, ?_⟩
  · intro k hk
    obtain ⟨σ₂, e₂, hr₂, hd₂⟩ := times_Unref_lt b a k σ₁ n hr₁' (by exact_mod_cast hk) hmax
    exact ⟨σ₂, e₂, by rw [hr₂]; simp, by rw [hd₂, hd₁]⟩
  · obtain ⟨m, rfl⟩ : ∃ m, n = m + 1 := ⟨n - 1, by omega⟩
    obtain ⟨σ₃, e₃, hr₃, hd₃⟩ := times_Unref_all b a m σ₁
      (by rw [hr₁']; push_cast; rfl) (by push_cast at hmax; exact hmax)
    exact ⟨σ₃, e₃, hr₃, by rw [hd₃, hd₁]⟩

/-- C1, witness: a 64-bit debug build, three references. -/
theorem C1_ref_unref_round_trip_witness :
    RoundTrip ⟨true, 64⟩ 0 (World.fresh ⟨true, 64⟩) 3 :=
  C1_ref_unref_round_trip ⟨true, 64⟩ 0 World.init (World.fresh ⟨true, 64⟩) 3 rfl
    (by decide) (by decide)

theorem not_roundTrip_of_wrap (b : Build) (hb : b.debug = false) (a : Addr) (σ : World)
    (n : Nat) (h0 : σ.ref_ a = some 0) (hn : 1 < n) (hw : b.wrap n = 1) :
    ¬ RoundTrip b a σ n := by
  rintro ⟨σ₁, e₁, hlt, -⟩
  obtain ⟨σ₁', e₁', hr₁⟩ := times_Ref_release b hb a n σ 0 h0
    (wrap_of_range b 0 (by have := half_pos b; omega) (half_pos b))
  rw [e₁] at e₁'
  cases e₁'
  rw [zero_add, hw] at hr₁
  obtain ⟨σ₂, e₂, hne, -⟩ := hlt 1 hn
  obtain ⟨σ₂', e₂', hnone, -⟩ := Unref_last b a σ₁ hr₁
  rw [times_succ_last _ 0 σ₁ σ₁ rfl, e₂'] at e₂
  cases e₂
  exact hne hnone

theorem not_roundTrip_debug (b : Build) (hb : b.debug = true) (a : Addr) (σ : World)
    (m : Nat) (h0 : σ.ref_ a = some 0) (hm : (m : Int) = b.maxCount) :
    ¬ RoundTrip b a σ (m + 1) := by
  rintro ⟨σ₁, e₁, -, σ₃, e₃, -⟩
  have hh := half_pos b
  obtain ⟨σm, em, hrm, -⟩ := times_Ref b a m σ 0 h0 le_rfl (by omega)
  rw [zero_add] at hrm
  have hm0 : (0 : Int) ≤ m := by omega
  rw [times_succ_last _ m σ σm em, Ref_eq b a σm m hrm (Or.inl hm0)] at e₁
  simp only [Except.ok.injEq] at e₁
  subst e₁
  have hw : b.wrap ((m : Int) + 1) = -b.half := by
    unfold Build.wrap
    unfold Build.maxCount at hm
    have e : (m : Int) + 1 + b.half = 0 + 1 * (2 * b.half) := by omega
    rw [e, Int.add_mul_emod_self, Int.zero_emod]
    omega
  have hfail : Unref b a (σm.store a (some (b.wrap ((m : Int) + 1))))
      = .error (.check (σm.store a (some (b.wrap ((m : Int) + 1))))) := by
    have hneg : ¬ (0 : Int) < -b.half := by omega
    simp [Unref, store_ref_same, hw, DCHECK, hb, hneg]
  simp only [times, hfail] at e₃
  cases e₃

/-- C1, counterexample: the claim as stated, for every `n ≥ 1`, fails once the
counter wraps.  In a release build, `2 ^ bits + 1` calls of `Ref` leave the
count of a fresh object at `1`, so the first `Unref` already destroys it; shown
for a 32-bit and for a 64-bit `int_fast32_t`.  In a debug build with a 32-bit
counter, `2 ^ 31` calls of `Ref` leave a negative count and the first `Unref`
fails its assertion, so the object is never destroyed. -/
theorem C1_round_trip_fails_after_wrap :
    ¬ RoundTrip ⟨false, 32⟩ 0 (World.fresh ⟨false, 32⟩) (2 ^ 32 + 1) ∧
    ¬ RoundTrip ⟨false, 64⟩ 0 (World.fresh ⟨false, 64⟩) (2 ^ 64 + 1) ∧
    ¬ RoundTrip ⟨true, 32⟩ 0 (World.fresh ⟨true, 32⟩) (2 ^ 31) := by
  refine ⟨?_, ?_, ?_⟩
  · exact not_roundTrip_of_wrap _ rfl 0 _ _ rfl (by norm_num) (by decide)
  · exact not_roundTrip_of_wrap _ rfl 0 _ _ rfl (by norm_num) (by decide)
  · have h := not_roundTrip_debug ⟨true, 32⟩ rfl 0 (World.fresh ⟨true, 32⟩) (2 ^ 31 - 1)
      rfl (by decide)
    have e : 2 ^ 31 - 1 + 1 = 2 ^ 31 := by norm_num
    rw [e] at h
    exact h

theorem step_spec (b : Build) (a : Addr) (D : List Addr) (c : Call) (σ : World) (k : Int)
    (hk : σ.ref_ a = some k) (h0 : 0 ≤ k) (hmax : k ≤ b.maxCount) (hD : σ.deleted = D)
    (hU : c = .Unref → 0 < k) (hR : c = .Ref → k < b.maxCount) :
    ∃ σ₂, c.exec b a σ = .ok σ₂ ∧
      (∀ k', σ₂.ref_ a = some k' → 0 ≤ k' ∧ k' ≤ b.maxCount) ∧
      (σ₂.ref_ a = none ↔ (c = .Unref ∧ k = 1)) ∧
      σ₂.deleted = if σ₂.ref_ a = none then D ++ [a] else D := by
  have hh := half_pos b
  unfold Build.maxCount at hmax hR ⊢
  cases c with
  | Ref =>
    have hlt := hR rfl
    have hw : b.wrap (k + 1) = k + 1 := wrap_of_range b _ (by omega) (by omega)
    refine ⟨σ.store a (some (k + 1)), ?_, ?_, ?_, ?_⟩
    · simp only [Call.exec, Ref_eq b a σ k hk (Or.inl h0), hw]
    · intro k' hk'
      rw [store_ref_same] at hk'
      cases hk'
      omega
    · simp [store_ref_same]
    · simp [store_ref_same, World.store, hD]
  | Unref =>
    have hpos := hU rfl
    by_cases h1 : k = 1
    · subst h1
      obtain ⟨σ', e, hr, hd, -⟩ := Unref_last b a σ hk
      refine ⟨σ', e, ?_, ?_, ?_⟩
      · intro k' hk'; rw [hr] at hk'; cases hk'
      · simp [hr]
      · simp [hr, hd, hD]
    · have hw : b.wrap (k - 1) = k - 1 := wrap_of_range b _ (by omega) (by omega)
      refine ⟨σ.store a (some (k - 1)), ?_, ?_, ?_, ?_⟩
      · simp only [Call.exec, Unref_more b a σ k hk h1 (Or.inl hpos), hw]
      · intro k' hk'
        rw [store_ref_same] at hk'
        cases hk'
        omega
      · simp [store_ref_same, h1]
      · simp [store_ref_same, World.store, hD]

theorem exec_dead (b : Build) (a : Addr) (c : Call) (σ : World) (h : σ.ref_ a = none) :
    c.exec b a σ = .error .undefined := by
  cases c <;> simp [Call.exec, Ref, Unref, h]

theorem run_dead (b : Build) (a : Addr) (cs : List Call) (σ σ₁ : World)
    (h : σ.ref_ a = none) (hrun : run b a cs σ = .ok σ₁) : σ₁.ref_ a = none := by
  cases cs with
  | nil => simp only [run, Except.ok.injEq] at hrun; subst hrun; exact h
  | cons c cs => simp [run, exec_dead b a c σ h] at hrun

theorem enters_cons (b : Build) (a : Addr) (σ σ' : World) (c₀ : Call) (cs : List Call)
    (h₀ : c₀.exec b a σ = .ok σ') (c : Call) (σ₁ : World) (k : Int)
    (h : Enters b a σ' cs c σ₁ k) : Enters b a σ (c₀ :: cs) c σ₁ k := by
  obtain ⟨pre, post, e, hrun, hk⟩ := h
  refine ⟨c₀ :: pre, post, by rw [e]; rfl, ?_, hk⟩
  simp only [run, h₀]
  exact hrun

theorem count_invariant_aux (b : Build) (a : Addr) (D : List Addr) :
    ∀ (calls : List Call) (σ : World) (k₀ : Int), σ.ref_ a = some k₀ → 0 ≤ k₀ →
      k₀ ≤ b.maxCount → σ.deleted = D →
      UnrefWhilePositive b a σ calls → RefBelowMax b a σ calls →
      ∀ c σ₁ k, Enters b a σ calls c σ₁ k →
        0 ≤ k ∧ σ₁.deleted = D ∧
        ∃ σ₂, c.exec b a σ₁ = .ok σ₂ ∧
          (∀ k', σ₂.ref_ a = some k' → 0 ≤ k') ∧
          (σ₂.ref_ a = none ↔ (c = .Unref ∧ k = 1)) ∧
          σ₂.deleted = if σ₂.ref_ a = none then D ++ [a] else D := by
  intro calls
  induction calls with
  | nil =>
    rintro σ k₀ - - - - - - c σ₁ k ⟨pre, post, e, -, -⟩
    simp at e
  | cons c₀ cs ih =>
    intro σ k₀ hk₀ h0 hmax hD hU hR c σ₁ k hent
    have hstep : ∃ σ₂, c₀.exec b a σ = .ok σ₂ ∧
        (∀ k', σ₂.ref_ a = some k' → 0 ≤ k' ∧ k' ≤ b.maxCount) ∧
        (σ₂.ref_ a = none ↔ (c₀ = .Unref ∧ k₀ = 1)) ∧
        σ₂.deleted = if σ₂.ref_ a = none then D ++ [a] else D := by
      apply step_spec b a D c₀ σ k₀ hk₀ h0 hmax hD
      · intro hc; subst hc; exact hU σ k₀ ⟨[], cs, rfl, rfl, hk₀⟩
      · intro hc; subst hc; exact hR σ k₀ ⟨[], cs, rfl, rfl, hk₀⟩
    obtain ⟨pre, post, e, hrun, hk⟩ := hent
    cases pre with
    | nil =>
      simp only [List.nil_append, List.cons.injEq] at e
      obtain ⟨rfl, rfl⟩ := e
      simp only [run, Except.ok.injEq] at hrun
      subst hrun
      rw [hk₀] at hk
      cases hk
      obtain ⟨σ₂, e₂, hnn, hiff, hdel⟩ := hstep
      exact ⟨h0, hD, σ₂, e₂, fun k' hk' => (hnn k' hk').1, hiff, hdel⟩
    | cons p pre =>
      simp only [List.cons_append, List.cons.injEq] at e
      obtain ⟨rfl, rfl⟩ := e
      obtain ⟨σ', e', hnn, -, hdel⟩ := hstep
      simp only [run, e'] at hrun
      cases hr' : σ'.ref_ a with
      | none =>
        have := run_dead b a pre σ' σ₁ hr' hrun
        rw [this] at hk
        cases hk
      | some k' =>
        have hD' : σ'.deleted = D := by simpa [hr'] using hdel
        obtain ⟨hk'0, hk'max⟩ := hnn k' hr'
        exact ih σ' k' hr' hk'0 hk'max hD'
          (fun σ₁ k h => hU σ₁ k (enters_cons b a σ σ' _ _ e' _ σ₁ k h))
          (fun σ₁ k h => hR σ₁ k (enters_cons b a σ σ' _ _ e' _ σ₁ k h))
          c σ₁ k ⟨pre, post, rfl, hrun, hk⟩

theorem enters_append (b : Build) (a : Addr) (σ σ' : World) (c₀ : Call) (pre post : List Call)
    (h₀ : c₀.exec b a σ = .ok σ') (c : Call) (σ₁ : World) (k : Int)
    (h : Enters b a σ' (pre ++ post) c σ₁ k) :
    Enters b a σ (c₀ :: pre ++ post) c σ₁ k :=
  enters_cons b a σ σ' c₀ (pre ++ post) h₀ c σ₁ k h

theorem deleted_once_aux (b : Build) (a : Addr) (D : List Addr) :
    ∀ (pre post : List Call) (σ σ' : World) (k₀ : Int), σ.ref_ a = some k₀ → 0 ≤ k₀ →
      k₀ ≤ b.maxCount → σ.deleted = D →
      UnrefWhilePositive b a σ (pre ++ post) → RefBelowMax b a σ (pre ++ post) →
      run b a pre σ = .ok σ' → σ'.deleted = D ∨ σ'.deleted = D ++ [a] := by
  intro pre
  induction pre with
  | nil =>
    intro post σ σ' k₀ _ _ _ hD _ _ hrun
    simp only [run, Except.ok.injEq] at hrun
    subst hrun
    exact Or.inl hD
  | cons c₀ pre ih =>
    intro post σ σ' k₀ hk₀ h0 hmax hD hU hR hrun
    obtain ⟨σ₁, e₁, hnn, -, hdel⟩ := step_spec b a D c₀ σ k₀ hk₀ h0 hmax hD
      (by intro hc; subst hc; exact hU σ k₀ ⟨[], pre ++ post, rfl, rfl, hk₀⟩)
      (by intro hc; subst hc; exact hR σ k₀ ⟨[], pre ++ post, rfl, rfl, hk₀⟩)
    simp only [run, e₁] at hrun
    cases hr₁ : σ₁.ref_ a with
    | none =>
      have hD₁ : σ₁.deleted = D ++ [a] := by simpa [hr₁] using hdel
      cases pre with
      | nil =>
        simp only [run, Except.ok.injEq] at hrun
        subst hrun
        exact Or.inr hD₁
      | cons c pre => simp [run, exec_dead b a c σ₁ hr₁] at hrun
    | some k₁ =>
      have hD₁ : σ₁.deleted = D := by simpa [hr₁] using hdel
      obtain ⟨hk₁0, hk₁max⟩ := hnn k₁ hr₁
      exact ih post σ₁ σ' k₁ hr₁ hk₁0 hk₁max hD₁
        (fun σ₂ k h => hU σ₂ k (enters_append b a σ σ₁ c₀ pre post e₁ _ σ₂ k h))
        (fun σ₂ k h => hR σ₂ k (enters_append b a σ σ₁ c₀ pre post e₁ _ σ₂ k h))
        hrun

/-- C5 (amended): for every sequence of `Ref` and `Unref` calls on a freshly
constructed object in which each `Unref` is made while the count is greater
than `0` and each `Ref` is made while the count is below the largest value of
the counter type, every call returns, the count is never negative, a call
destroys the object if and only if it is an `Unref` entered with count exactly
`1`, and the object is deleted at most once. -/
theorem C5_count_invariant (b : Build) (a : Addr) (σ₀ σ : World) (calls : List Call)
    (hnew : RefCounted.new b a σ₀ = .ok σ)
    (hU : UnrefWhilePositive b a σ calls) (hR : RefBelowMax b a σ calls) :
    CountInvariant b a σ calls := by
  obtain ⟨h0, -, -, -⟩ := new_fresh b a σ₀ σ hnew
  have hh := half_pos b
  have hmax : (0 : Int) ≤ b.maxCount := by unfold Build.maxCount; omega
  refine ⟨count_invariant_aux b a σ.deleted calls σ 0 h0 le_rfl hmax rfl hU hR, ?_⟩
  intro pre post σ' e hrun
  subst e
  exact deleted_once_aux b a σ.deleted pre post σ σ' 0 h0 le_rfl hmax rfl hU hR hrun

theorem disciplined_sound (b : Build) (a : Addr) (ok : Call → Int → Bool) :
    ∀ (calls : List Call) (σ : World), disciplined b a ok calls σ = true →
      ∀ c σ₁ k, Enters b a σ calls c σ₁ k → ok c k = true := by
  intro calls
  induction calls with
  | nil =>
    rintro σ - c σ₁ k ⟨pre, post, e, -, -⟩
    simp at e
  | cons c₀ cs ih =>
    rintro σ hd c σ₁ k ⟨pre, post, e, hrun, hk⟩
    cases pre with
    | nil =>
      simp only [List.nil_append, List.cons.injEq] at e
      obtain ⟨rfl, rfl⟩ := e
      simp only [run, Except.ok.injEq] at hrun
      subst hrun
      simp only [disciplined, hk, Bool.and_eq_true] at hd
      exact hd.1
    | cons p pre =>
      simp only [List.cons_append, List.cons.injEq] at e
      obtain ⟨rfl, rfl⟩ := e
      cases he : Call.exec b a c₀ σ with
      | error f => simp [run, he] at hrun
      | ok σ' =>
        simp only [run, he] at hrun
        cases hr : σ.ref_ a with
        | none => rw [exec_dead b a c₀ σ hr] at he; cases he
        | some k₀ =>
          simp only [disciplined, hr, he, Bool.and_eq_true] at hd
          exact ih σ' hd.2 c σ₁ k ⟨pre, post, rfl, hrun, hk⟩

/-- C5, witness: a 64-bit debug build and the sequence `Ref, Ref, Unref, Ref,
Unref, Unref` on a fresh object. -/
theorem C5_count_invariant_witness :
    CountInvariant ⟨true, 64⟩ 0 (World.fresh ⟨true, 64⟩)
      [.Ref, .Ref, .Unref, .Ref, .Unref, .Unref] :=
  C5_count_invariant ⟨true, 64⟩ 0 World.init (World.fresh ⟨true, 64⟩)
    [.Ref, .Ref, .Unref, .Ref, .Unref, .Unref] rfl
    (fun σ₁ k h => by
      have := disciplined_sound ⟨true, 64⟩ 0 (fun c k => c != .Unref || decide (0 < k))
        _ _ (by decide) _ σ₁ k h
      simpa using this)
    (fun σ₁ k h => by
      have := disciplined_sound ⟨true, 64⟩ 0
        (fun c k => c != .Ref || decide (k < Build.maxCount ⟨true, 64⟩))
        _ _ (by decide) _ σ₁ k h
      simpa using this)

theorem run_replicate_Ref (b : Build) (a : Addr) (n : Nat) :
    ∀ σ : World, run b a (List.replicate n .Ref) σ = times (Ref b a) n σ := by
  induction n with
  | zero => intro σ; rfl
  | succ n ih =>
    intro σ
    simp only [List.replicate_succ, run, times, Call.exec]
    cases Ref b a σ with
    | error e => rfl
    | ok σ' => exact ih σ'

theorem not_countInvariant_of_max (b : Build) (a : Addr) (σ : World) (m : Nat)
    (h0 : σ.ref_ a = some 0) (hm : (m : Int) = b.maxCount) :
    ¬ CountInvariant b a σ (List.replicate (m + 1) .Ref) := by
  intro hinv
  have hh := half_pos b
  obtain ⟨σ₁, e₁, hr₁, -⟩ := times_Ref b a m σ 0 h0 le_rfl (by omega)
  rw [zero_add] at hr₁
  have hent : Enters b a σ (List.replicate (m + 1) .Ref) .Ref σ₁ m :=
    ⟨List.replicate m .Ref, [], by rw [List.replicate_succ'],
      by rw [run_replicate_Ref]; exact e₁, hr₁⟩
  obtain ⟨-, -, σ₂, e₂, hnn, -, -⟩ := hinv.1 .Ref σ₁ m hent
  have hm0 : (0 : Int) ≤ m := by omega
  simp only [Call.exec, Ref_eq b a σ₁ m hr₁ (Or.inl hm0), Except.ok.injEq] at e₂
  subst e₂
  have hneg := hnn _ (store_ref_same _ _ _)
  have hw : b.wrap ((m : Int) + 1) = -b.half := by
    unfold Build.wrap
    unfold Build.maxCount at hm
    have e : (m : Int) + 1 + b.half = 0 + 1 * (2 * b.half) := by omega
    rw [e, Int.add_mul_emod_self, Int.zero_emod]
    omega
  rw [hw] at hneg
  omega

/-- C5, counterexample: the claim as stated fails when the counter wraps.  On
a 32-bit counter, in a debug build, `2 ^ 31` calls of `Ref` on a fresh object
contain no `Unref` at all, yet the last `Ref`, entered with count `2 ^ 31 - 1`,
leaves a negative count. -/
theorem C5_count_negative_after_wrap :
    UnrefWhilePositive ⟨true, 32⟩ 0 (World.fresh ⟨true, 32⟩) (List.replicate (2 ^ 31) .Ref) ∧
    ¬ CountInvariant ⟨true, 32⟩ 0 (World.fresh ⟨true, 32⟩) (List.replicate (2 ^ 31) .Ref) := by
  constructor
  · rintro σ₁ k ⟨pre, post, e, -, -⟩
    have hmem : Call.Unref ∈ List.replicate (2 ^ 31) Call.Ref := by
      rw [e]; simp
    have := List.eq_of_mem_replicate hmem
    cases this
  · have h := not_countInvariant_of_max ⟨true, 32⟩ 0 (World.fresh ⟨true, 32⟩) (2 ^ 31 - 1)
      rfl (by decide)
    have e : 2 ^ 31 - 1 + 1 = 2 ^ 31 := by norm_num
    rw [e] at h
    exact h

/-- C8: in a debug build, `Unref` on a live object fails with a fatal assertion
if and only if the count is not greater than `0` on entry; in that case the
process aborts in the very state in which `Unref` was entered (the object is
not destroyed and its count is unchanged).  In every build, `Ref` returns
normally on a live object whose count is at least `0`. -/
theorem C8_unref_assertion (b : Build) (hb : b.debug = true) (a : Addr) (σ : World)
    (r : Int) (h : σ.ref_ a = some r) :
    ((∃ σf, Unref b a σ = .error (.check σf)) ↔ ¬ 0 < r) ∧
    (¬ 0 < r → Unref b a σ = .error (.check σ)) ∧
    (∀ b' : Build, 0 ≤ r → ∃ σ', Ref b' a σ = .ok σ') := by
  have hfail : ¬ 0 < r → Unref b a σ = .error (.check σ) := by
    intro hr
    simp [Unref, h, DCHECK, hb, hr]
  refine ⟨⟨?_, fun hr => ⟨σ, hfail hr⟩⟩, hfail, ?_⟩
  · rintro ⟨σf, e⟩ hr
    by_cases h1 : r = 1
    · subst h1
      obtain ⟨σ', e', -⟩ := Unref_last b a σ h
      rw [e'] at e
      cases e
    · rw [Unref_more b a σ r h h1 (Or.inl hr)] at e
      cases e
  · intro b' hr
    exact ⟨_, Ref_eq b' a σ r h (Or.inl hr)⟩

/-- C8, witness: a 64-bit debug build and a fresh object, whose count is `0`. -/
theorem C8_unref_assertion_witness :
    ((∃ σf, Unref ⟨true, 64⟩ 0 (World.fresh ⟨true, 64⟩) = .error (.check σf)) ↔ ¬ (0 : Int) < 0) ∧
    (¬ (0 : Int) < 0 →
      Unref ⟨true, 64⟩ 0 (World.fresh ⟨true, 64⟩) = .error (.check (World.fresh ⟨true, 64⟩))) ∧
    (∀ b' : Build, (0 : Int) ≤ 0 → ∃ σ', Ref b' 0 (World.fresh ⟨true, 64⟩) = .ok σ') :=
  C8_unref_assertion ⟨true, 64⟩ rfl 0 (World.fresh ⟨true, 64⟩) 0 rfl

theorem node_lt (σ : World) (h : Hnd) (p : Option Addr) (hp : σ.node_ h = some p) :
    h < σ.handles.length := by
  by_contra hlt
  simp [World.node_, List.getD, List.getElem?_eq_none (not_lt.mp hlt)] at hp

theorem node_setNode_same (σ : World) (h : Hnd) (p : Option Addr)
    (hlt : h < σ.handles.length) : (σ.setNode h p).node_ h = some p := by
  simp [World.node_, World.setNode, List.getD, List.getElem?_set, hlt]

theorem node_setNode_other (σ : World) (h h' : Hnd) (p : Option Addr) (hne : h' ≠ h) :
    (σ.setNode h p).node_ h' = σ.node_ h' := by
  simp [World.node_, World.setNode, List.getD, List.getElem?_set, Ne.symm hne]

theorem node_store (σ : World) (a : Addr) (v : Option Int) (h : Hnd) :
    (σ.store a v).node_ h = σ.node_ h := rfl

theorem Unref_frame (b : Build) (a : Addr) (σ : World) (c : Int) (h : σ.ref_ a = some c)
    (hc : 0 < c ∨ b.debug = false) :
    ∃ σ', Unref b a σ = .ok σ' ∧ σ'.handles = σ.handles ∧
      (∀ a', a' ≠ a → σ'.ref_ a' = σ.ref_ a') ∧
      (c = 1 → σ'.ref_ a = none ∧ σ'.deleted = σ.deleted ++ [a]) ∧
      (c ≠ 1 → σ'.ref_ a = some (b.wrap (c - 1)) ∧ σ'.deleted = σ.deleted) := by
  by_cases h1 : c = 1
  · subst h1
    obtain ⟨σ', e, hr, hd, hh, hfr⟩ := Unref_last b a σ h
    exact ⟨σ', e, hh, hfr, fun _ => ⟨hr, hd⟩, fun hne => absurd rfl hne⟩
  · refine ⟨_, Unref_more b a σ c h h1 hc, rfl, ?_, fun e => absurd e h1, fun _ => ⟨?_, rfl⟩⟩
    · intro a' ha'
      exact store_ref_other σ a a' _ ha'
    · exact store_ref_same _ _ _

theorem node_default_new (σ : World) :
    (RefHandle.default σ).2.node_ σ.handles.length = some none := by
  simp [RefHandle.default, World.node_, List.getD]

theorem node_default_old (σ : World) (h : Hnd) (hlt : h < σ.handles.length) :
    (RefHandle.default σ).2.node_ h = σ.node_ h := by
  simp [RefHandle.default, World.node_, List.getD, List.getElem?_append_left hlt]

theorem moveBody_spec (σ : World) (dst src : Hnd) (p q : Option Addr) (hne : dst ≠ src)
    (hsrc : σ.node_ src = some p) (hdst : σ.node_ dst = some q) :
    ∃ σ', RefHandle.moveBody dst src σ = .ok σ' ∧ σ'.node_ dst = some p ∧
      σ'.node_ src = some none ∧ σ'.ref_ = σ.ref_ ∧ σ'.deleted = σ.deleted := by
  refine ⟨(σ.setNode dst p).setNode src none, ?_, ?_, ?_, rfl, rfl⟩
  · simp [RefHandle.moveBody, hsrc, hdst]
  · rw [node_setNode_other _ _ _ _ hne]
    exact node_setNode_same σ dst p (node_lt σ dst q hdst)
  · apply node_setNode_same
    have := node_lt σ src p hsrc
    simpa [World.setNode] using this

theorem setNode_setNode (σ : World) (h : Hnd) (p q : Option Addr) :
    (σ.setNode h p).setNode h q = σ.setNode h q := by
  simp [World.setNode, List.set_set]

/-- Move construction does what claim C7 says: for every live source handle
the call returns, the new handle refers to the former referent of the source,
the source is null, the `ref_` field of every object is what it was before, and
nothing has been deleted. -/
theorem moveConstruct_keeps_counts (σ : World) (src : Hnd) (p : Option Addr)
    (hsrc : σ.node_ src = some p) :
    ∃ σ', RefHandle.moveConstruct src σ = .ok (σ.handles.length, σ') ∧
      σ'.node_ σ.handles.length = some p ∧ σ'.node_ src = some none ∧
      σ'.ref_ = σ.ref_ ∧ σ'.deleted = σ.deleted := by
  have hlt := node_lt σ src p hsrc
  obtain ⟨σ', e, h₁, h₂, h₃, h₄⟩ := moveBody_spec (RefHandle.default σ).2 σ.handles.length
    src p none (Nat.ne_of_gt hlt) (by rw [node_default_old σ src hlt]; exact hsrc)
    (node_default_new σ)
  refine ⟨σ', ?_, h₁, h₂, h₃, h₄⟩
  simp only [RefHandle.moveConstruct]
  simp only [RefHandle.default] at e ⊢
  rw [e]

/-- No call of the move assignment returns normally: when its statements run
to their end, control flows off the end of the function. -/
theorem moveAssign_never_returns (this other : Hnd) (σ σ' : World) :
    RefHandle.moveAssign this other σ ≠ .ok σ' := by
  unfold RefHandle.moveAssign
  cases RefHandle.moveBody this other σ <;> simp

/-- The outcome of the move assignment between two different live handles: its
statements leave the destination referring to the former referent of the
source, the source null and every count untouched, and the call then ends
without a `return`. -/
theorem moveAssign_outcome (σ : World) (dst src : Hnd) (p q : Option Addr) (hne : dst ≠ src)
    (hsrc : σ.node_ src = some p) (hdst : σ.node_ dst = some q) :
    ∃ σ', RefHandle.moveAssign dst src σ = .error (.noReturn σ') ∧ σ'.node_ dst = some p ∧
      σ'.node_ src = some none ∧ σ'.ref_ = σ.ref_ ∧ σ'.deleted = σ.deleted := by
  obtain ⟨σ', e, h⟩ := moveBody_spec σ dst src p q hne hsrc hdst
  exact ⟨σ', by simp [RefHandle.moveAssign, e], h⟩

/-- C7, failing input: in `World.ownerAndNull` handle `0` refers to the object
at `0` and handle `1` is null.  The move assignment `handle 1 = move(handle 0)`
does not return normally, and no call of the move assignment ever does: the
operator is declared to return `RefHandle&` and has no `return` statement.
Its two statements do leave handle `1` referring to the object, handle `0`
null, every count unchanged and nothing deleted. -/
theorem C7_move_assign_no_return :
    (∀ (this other : Hnd) (σ σ' : World), RefHandle.moveAssign this other σ ≠ .ok σ') ∧
    ∃ σ', RefHandle.moveAssign 1 0 World.ownerAndNull = .error (.noReturn σ') ∧
      σ'.node_ 1 = some (some 0) ∧ σ'.node_ 0 = some none ∧
      σ'.ref_ = World.ownerAndNull.ref_ ∧ σ'.deleted = World.ownerAndNull.deleted :=
  ⟨moveAssign_never_returns,
    moveAssign_outcome World.ownerAndNull 1 0 (some 0) none (by decide) rfl rfl⟩

theorem reset_spec (b : Build) (h : Hnd) (σ : World) (p : Option Addr)
    (hp : σ.node_ h = some p) (hrel : Releasable b σ p) :
    ∃ σ₀, (match p with
            | none => σ₀ = σ
            | some a => Unref b a σ = .ok σ₀) ∧
      RefHandle.reset b h σ = .ok (σ₀.setNode h none) ∧ σ₀.handles = σ.handles ∧
      (∀ a, some a ≠ p → σ₀.ref_ a = σ.ref_ a) ∧
      (∀ a c, p = some a → σ.ref_ a = some c → c ≠ 1 → σ₀.ref_ a = some (b.wrap (c - 1))) := by
  cases p with
  | none =>
    refine ⟨σ, rfl, ?_, rfl, fun _ _ => rfl, ?_⟩
    · simp [RefHandle.reset, hp]
    · intro a c hc; cases hc
  | some a =>
    obtain ⟨c, hc, hpos⟩ := hrel
    obtain ⟨σ₀, e, hh, hfr, -, hmore⟩ := Unref_frame b a σ c hc hpos
    refine ⟨σ₀, e, ?_, hh, ?_, ?_⟩
    · simp [RefHandle.reset, hp, e]
    · intro a' ha'
      exact hfr a' (fun e => ha' (by rw [e]))
    · intro a' c' ha' hc' hne
      cases ha'
      rw [hc] at hc'
      cases hc'
      exact (hmore hne).1

theorem copyBody_of_reset (b : Build) (dst src : Hnd) (σ σ₀ : World) (r : Addr) (c₁ : Int)
    (hreset : RefHandle.reset b dst σ = .ok (σ₀.setNode dst none))
    (hsrc : σ₀.node_ src = some (some r)) (hlt : dst < σ₀.handles.length) (hne : dst ≠ src)
    (hr : σ₀.ref_ r = some c₁) (h0 : 0 ≤ c₁ ∨ b.debug = false) :
    ∃ σ', RefHandle.copyBody b dst src σ = .ok σ' ∧ σ'.node_ dst = some (some r) ∧
      σ'.node_ src = some (some r) ∧ σ'.ref_ r = some (b.wrap (c₁ + 1)) ∧
      ∀ a, a ≠ r → σ'.ref_ a = σ₀.ref_ a := by
  have hsrc' : (σ₀.setNode dst none).node_ src = some (some r) := by
    rw [node_setNode_other _ _ _ _ (Ne.symm hne)]; exact hsrc
  refine ⟨((σ₀.setNode dst none).setNode dst (some r)).store r (some (b.wrap (c₁ + 1))),
    ?_, ?_, ?_, ?_, ?_⟩
  · simp only [RefHandle.copyBody, hreset, hsrc']
    exact Ref_eq b r _ c₁ hr h0
  · rw [node_store, setNode_setNode]
    exact node_setNode_same σ₀ dst _ hlt
  · rw [node_store, setNode_setNode, node_setNode_other _ _ _ _ (Ne.symm hne)]
    exact hsrc
  · exact store_ref_same _ _ _
  · intro a ha
    exact store_ref_other _ r a _ ha

theorem copyBody_null (b : Build) (dst src : Hnd) (σ : World) (p : Option Addr)
    (hsrc : σ.node_ src = some none) (hdst : σ.node_ dst = some p)
    (hrel : Releasable b σ p) :
    RefHandle.copyBody b dst src σ = RefHandle.reset b dst σ ∧
      ∃ σ', RefHandle.reset b dst σ = .ok σ' ∧ σ'.node_ dst = some none ∧
        σ'.node_ src = some none ∧ (p = none → σ'.ref_ = σ.ref_ ∧ σ'.deleted = σ.deleted) := by
  obtain ⟨σ₀, hσ₀, e, hh, -, -⟩ := reset_spec b dst σ p hdst hrel
  have hlt : dst < σ₀.handles.length := by rw [hh]; exact node_lt σ dst p hdst
  have hsrc₀ : σ₀.node_ src = some none := by
    unfold World.node_ at hsrc ⊢; rw [hh]; exact hsrc
  have hsrc₁ : (σ₀.setNode dst none).node_ src = some none := by
    by_cases hds : src = dst
    · subst hds; exact node_setNode_same σ₀ src none hlt
    · rw [node_setNode_other _ _ _ _ hds]; exact hsrc₀
  refine ⟨?_, σ₀.setNode dst none, e, node_setNode_same σ₀ dst none hlt, hsrc₁, ?_⟩
  · simp only [RefHandle.copyBody, e, hsrc₁, setNode_setNode]
  · intro hp
    subst hp
    simp only at hσ₀
    subst hσ₀
    exact ⟨rfl, rfl⟩

theorem copyConstruct_eq (b : Build) (src : Hnd) (σ σ' : World)
    (h : RefHandle.copyBody b σ.handles.length src (RefHandle.default σ).2 = .ok σ') :
    RefHandle.copyConstruct b src σ = .ok (σ.handles.length, σ') := by
  simp only [RefHandle.copyConstruct]
  simp only [RefHandle.default] at h ⊢
  rw [h]

theorem copyBody_other (b : Build) (σ : World) (src dst : Hnd) (r : Addr) (c : Int)
    (p : Option Addr) (hsrc : σ.node_ src = some (some r)) (hr : σ.ref_ r = some c)
    (h0 : 0 ≤ c) (hmax : c < b.maxCount)
    (hne : dst ≠ src) (hdst : σ.node_ dst = some p) (hpr : p ≠ some r)
    (hrel : Releasable b σ p) :
    ∃ σ', RefHandle.copyBody b dst src σ = .ok σ' ∧
      σ'.node_ dst = some (some r) ∧ σ'.node_ src = some (some r) ∧
      σ'.ref_ r = some (c + 1) := by
  have hh := half_pos b
  unfold Build.maxCount at hmax
  have hw : b.wrap (c + 1) = c + 1 := wrap_of_range b _ (by omega) (by omega)
  obtain ⟨σ₀, -, e, hhd, hfr, -⟩ := reset_spec b dst σ p hdst hrel
  have hr₀ : σ₀.ref_ r = some c := by rw [hfr r (Ne.symm hpr)]; exact hr
  obtain ⟨σ', e', h₁, h₂, h₃, -⟩ := copyBody_of_reset b dst src σ σ₀ r c e
    (by unfold World.node_ at hsrc ⊢; rw [hhd]; exact hsrc)
    (by rw [hhd]; exact node_lt σ dst p hdst) hne hr₀ (Or.inl h0)
  exact ⟨σ', e', h₁, h₂, by rw [h₃, hw]⟩

/-- No call of the copy assignment returns normally: when its statements run
to their end, control flows off the end of the function. -/
theorem copyAssign_never_returns (b : Build) (this other : Hnd) (σ σ' : World) :
    RefHandle.copyAssign b this other σ ≠ .ok σ' := by
  unfold RefHandle.copyAssign
  cases RefHandle.copyBody b this other σ <;> simp

/-- C6 (amended): copy construction increments the count of the referent.  For
every source handle whose referent `r` is live with a count `c`, `0 ≤ c <
maxCount`, copy construction returns, the new handle refers to `r`, the source
still refers to `r`, and the count of `r` is `c + 1`.  Copy construction from a
null handle returns a null handle, changes no count and deletes nothing. -/
theorem C6_copy_increments :
    (∀ (b : Build) (σ : World) (src : Hnd) (r : Addr) (c : Int),
      σ.node_ src = some (some r) → σ.ref_ r = some c → 0 ≤ c → c < b.maxCount →
      ∃ σ', RefHandle.copyConstruct b src σ = .ok (σ.handles.length, σ') ∧
          σ'.node_ σ.handles.length = some (some r) ∧ σ'.node_ src = some (some r) ∧
          σ'.ref_ r = some (c + 1)) ∧
    (∀ (b : Build) (σ : World) (src : Hnd), σ.node_ src = some none →
      ∃ σ', RefHandle.copyConstruct b src σ = .ok (σ.handles.length, σ') ∧
          σ'.node_ σ.handles.length = some none ∧ σ'.node_ src = some none ∧
          σ'.ref_ = σ.ref_ ∧ σ'.deleted = σ.deleted) := by
  constructor
  · intro b σ src r c hsrc hr h0 hmax
    have hlt := node_lt σ src _ hsrc
    obtain ⟨σ', e, h₁, h₂, h₃⟩ := copyBody_other b (RefHandle.default σ).2 src
      σ.handles.length r c none
      (by rw [node_default_old σ src hlt]; exact hsrc) hr h0 hmax (Nat.ne_of_gt hlt)
      (node_default_new σ) (by simp) trivial
    exact ⟨σ', copyConstruct_eq b src σ σ' e, h₁, h₂, h₃⟩
  · intro b σ src hsrc
    have hlt := node_lt σ src _ hsrc
    obtain ⟨e, σ', e', h₁, h₂, h₃⟩ := copyBody_null b σ.handles.length src
      (RefHandle.default σ).2 none
      (by rw [node_default_old σ src hlt]; exact hsrc) (node_default_new σ) trivial
    rw [← e] at e'
    obtain ⟨h₃, h₄⟩ := h₃ rfl
    exact ⟨σ', copyConstruct_eq b src σ σ' e', h₁, h₂, h₃, h₄⟩

/-- C6, witness: in `World.shared` handle `0` refers to the object at `0`,
whose count is `2`; in `World.ownerAndNull` handle `1` is null. -/
theorem C6_copy_increments_witness :
    (∃ σ', RefHandle.copyConstruct ⟨true, 64⟩ 0 World.shared = .ok (2, σ') ∧
        σ'.node_ 2 = some (some 0) ∧ σ'.node_ 0 = some (some 0) ∧
        σ'.ref_ 0 = some (2 + 1)) ∧
    (∃ σ', RefHandle.copyConstruct ⟨true, 64⟩ 1 World.ownerAndNull = .ok (2, σ') ∧
        σ'.node_ 2 = some none ∧ σ'.node_ 1 = some none ∧
        σ'.ref_ = World.ownerAndNull.ref_ ∧ σ'.deleted = World.ownerAndNull.deleted) :=
  ⟨C6_copy_increments.1 ⟨true, 64⟩ World.shared 0 0 2 rfl rfl (by decide) (by decide),
   C6_copy_increments.2 ⟨true, 64⟩ World.ownerAndNull 1 rfl⟩

/-- C6, counterexample: the claim as stated fails at the largest value of the
counter.  In `World.saturated` handle `0` refers to the object at `0`, whose
count is `2 ^ 31 - 1`; on a 32-bit counter, copy construction returns with
both handles referring to the object and takes its count to `-2 ^ 31`, which
is not one greater than before. -/
theorem C6_copy_construct_count_wraps :
    World.saturated.node_ 0 = some (some 0) ∧
    World.saturated.ref_ 0 = some (2 ^ 31 - 1) ∧
    ∃ σ', RefHandle.copyConstruct ⟨true, 32⟩ 0 World.saturated = .ok (1, σ') ∧
      σ'.node_ 1 = some (some 0) ∧ σ'.node_ 0 = some (some 0) ∧
      σ'.ref_ 0 = some (-2 ^ 31) ∧ σ'.ref_ 0 ≠ some (2 ^ 31 - 1 + 1) := by
  refine ⟨rfl, rfl, _, rfl, rfl, rfl, rfl, ?_⟩
  decide

theorem consistent_twoOwners : Consistent World.twoOwners := by
  intro a c h
  simp only [World.twoOwners] at h ⊢
  by_cases h0 : a = 0
  · subst h0; simp at h; subst h; decide
  · by_cases h1 : a = 1
    · subst h1; simp at h; subst h; decide
    · simp [h0, h1] at h

/-- C10, failing input: in `World.twoOwners` every count equals the number of
handles that refer to the object.  The statements of the move assignment
`handle 0 = move(handle 1)` run to their end (where the operator, having no
`return` statement, stops returning normally), and in the state they leave the
object at `0` is still alive with count `1` although no handle refers to it:
nothing was deleted and consistency is lost. -/
theorem C10_move_assign_leaks :
    Consistent World.twoOwners ∧
    ∃ σ', RefHandle.moveBody 0 1 World.twoOwners = .ok σ' ∧
      RefHandle.moveAssign 0 1 World.twoOwners = .error (.noReturn σ') ∧
      σ'.ref_ 0 = some 1 ∧ σ'.handles.count (some (some 0)) = 0 ∧
      σ'.deleted = [] ∧ ¬ Consistent σ' := by
  refine ⟨consistent_twoOwners, _, rfl, rfl, rfl, by decide, rfl, ?_⟩
  intro h
  have := h 0 1 rfl
  revert this
  decide

end RefCount

namespace Fuser

theorem allSame_iff (ds : List Device) :
    allSame ds = true ↔ ∀ d ∈ ds, ∀ e ∈ ds, d = e := by
  simp [allSame, List.all_eq_true]

theorem mem_absorbable (cfg : Config) (g : Graph) (taken grp : List Nat) (j : Nat)
    (h : j ∈ absorbable cfg g taken grp) :
    j < g.nodes.length ∧ j ∉ grp ∧ j ∉ taken ∧ candidate cfg g j = true ∧
      DevicesConsistent g [j] grp = true := by
  simp only [absorbable, List.mem_filter, List.mem_reverse, List.mem_range,
    Bool.and_eq_true, Bool.not_eq_true', List.contains_eq_any_beq] at h
  obtain ⟨hlt, ⟨⟨⟨⟨⟨h₁, h₂⟩, -⟩, h₄⟩, h₅⟩, -⟩⟩ := h
  refine ⟨hlt, ?_, ?_, h₄, h₅⟩
  · intro hm
    have : grp.any (fun x => j == x) = true := List.any_eq_true.mpr ⟨j, hm, by simp⟩
    rw [this] at h₁; cases h₁
  · intro hm
    have : taken.any (fun x => j == x) = true := List.any_eq_true.mpr ⟨j, hm, by simp⟩
    rw [this] at h₂; cases h₂

theorem grow_induct (cfg : Config) (g : Graph) (taken : List Nat) (Q : List Nat → Prop)
    (hstep : ∀ grp j, Q grp → j ∈ absorbable cfg g taken grp → Q (grp ++ [j])) :
    ∀ (fuel : Nat) (grp : List Nat), Q grp → Q (grow cfg g taken fuel grp) := by
  intro fuel
  induction fuel with
  | zero => intro grp h; exact h
  | succ fuel ih =>
    intro grp h
    unfold grow
    cases hab : absorbable cfg g taken grp with
    | nil => exact h
    | cons j rest =>
      exact ih _ (hstep grp j h (by rw [hab]; exact List.mem_cons_self _ _))

theorem devicesConsistent_iff (g : Graph) (a b : List Nat) :
    DevicesConsistent g a b = true ↔
      ∀ i ∈ a ++ b, ∀ j ∈ a ++ b, ∀ d ∈ g.devicesAt i, ∀ e ∈ g.devicesAt j, d = e := by
  rw [DevicesConsistent, allSame_iff]
  constructor
  · intro h i hi j hj d hd e he
    exact h d (List.mem_flatMap.mpr ⟨i, hi, hd⟩) e (List.mem_flatMap.mpr ⟨j, hj, he⟩)
  · intro h d hd e he
    obtain ⟨i, hi, hd⟩ := List.mem_flatMap.mp hd
    obtain ⟨j, hj, he⟩ := List.mem_flatMap.mp he
    exact h i hi j hj d hd e he

theorem candidate_lt (cfg : Config) (g : Graph) (i : Nat) (h : candidate cfg g i = true) :
    i < g.nodes.length := by
  by_contra hlt
  simp [candidate, Graph.node?, List.getElem?_eq_none (not_lt.mp hlt)] at h

theorem grow_good (cfg : Config) (g : Graph) (taken : List Nat) (fuel i : Nat)
    (h : startable cfg g i = true) : GoodGroup cfg g (grow cfg g taken fuel [i]) := by
  simp only [startable, Bool.and_eq_true] at h
  obtain ⟨hc, hd⟩ := h
  apply grow_induct cfg g taken (GoodGroup cfg g)
  · rintro grp j ⟨hnd, hmem, hdev⟩ hj
    obtain ⟨hlt, hnot, -, hcand, hcons⟩ := mem_absorbable cfg g taken grp j hj
    rw [devicesConsistent_iff] at hcons
    refine ⟨?_, ?_, ?_⟩
    · rw [List.nodup_append]
      exact ⟨hnd, List.nodup_singleton j, by
        intro x hx hx'
        rw [List.mem_singleton] at hx'
        subst hx'
        exact hnot hx⟩
    · intro x hx
      rw [List.mem_append, List.mem_singleton] at hx
      rcases hx with hx | rfl
      · exact hmem x hx
      · exact ⟨hlt, hcand⟩
    · intro x hx y hy
      have hx' : x ∈ [j] ++ grp := by
        rw [List.mem_append, List.mem_singleton] at hx ⊢; tauto
      have hy' : y ∈ [j] ++ grp := by
        rw [List.mem_append, List.mem_singleton] at hy ⊢; tauto
      exact hcons x hx' y hy'
  · rw [devicesConsistent_iff] at hd
    refine ⟨List.nodup_singleton i, ?_, ?_⟩
    · intro x hx
      rw [List.mem_singleton] at hx
      subst hx
      exact ⟨candidate_lt cfg g x hc, hc⟩
    · intro x hx y hy
      rw [List.mem_singleton] at hx hy
      rw [hx, hy]
      exact hd i (by simp) i (by simp)

theorem visit_groups (cfg : Config) (g : Graph) (P : List Nat → Prop)
    (hP : ∀ taken i, startable cfg g i = true →
      cfg.min_group_size ≤ (grow cfg g taken g.nodes.length [i]).length →
      P (grow cfg g taken g.nodes.length [i]))
    (st : Progress) (i : Nat) (hst : ∀ grp ∈ st.groups, P grp) :
    ∀ grp ∈ (visit cfg g st i).groups, P grp := by
  unfold visit
  split
  · exact hst
  · split
    · rename_i hstart
      dsimp only
      split
      · rename_i hmin
        intro grp hgrp
        simp only [List.mem_append, List.mem_singleton] at hgrp
        rcases hgrp with hgrp | rfl
        · exact hst grp hgrp
        · exact hP st.taken i hstart hmin
      · exact hst
    · exact hst

theorem foldl_visit_groups (cfg : Config) (g : Graph) (P : List Nat → Prop)
    (hP : ∀ taken i, startable cfg g i = true →
      cfg.min_group_size ≤ (grow cfg g taken g.nodes.length [i]).length →
      P (grow cfg g taken g.nodes.length [i])) :
    ∀ (l : List Nat) (st : Progress), (∀ grp ∈ st.groups, P grp) →
      ∀ grp ∈ (l.foldl (visit cfg g) st).groups, P grp := by
  intro l
  induction l with
  | nil => intro st h; exact h
  | cons i l ih =>
    intro st h
    exact ih (visit cfg g st i) (visit_groups cfg g P hP st i h)

theorem partition_good (cfg : Config) (g : Graph) :
    ∀ grp ∈ partition cfg g, cfg.min_group_size ≤ grp.length ∧ GoodGroup cfg g grp := by
  apply foldl_visit_groups cfg g
    (fun grp => cfg.min_group_size ≤ grp.length ∧ GoodGroup cfg g grp)
  · intro taken i hstart hmin
    exact ⟨hmin, grow_good cfg g taken _ i hstart⟩
  · intro grp hgrp
    cases hgrp

theorem place_group (groups : List (List Nat)) (i k : Nat) (m : List Nat)
    (h : place groups i = some (.group k m)) :
    m ∈ groups ∧ groups[k]? = some m ∧ m.head? = some i := by
  unfold place at h
  split at h
  · cases h
  · rename_i k' hk'
    simp only at h
    split at h
    · rename_i hhead
      simp only [Option.some.injEq, Item.group.injEq] at h
      obtain ⟨rfl, rfl⟩ := h
      have hget : groups[k']? = some (groups.getD k' []) := by
        cases hq : groups[k']? with
        | none => simp [List.getD, hq] at hhead
        | some x => simp [List.getD, hq]
      exact ⟨List.getElem?_mem hget, hget, hhead⟩
    · cases h

theorem group_mem_partition (cfg : Config) (g : Graph) (k : Nat) (m : List Nat)
    (h : Item.group k m ∈ FuseTensorExprs cfg g) : m ∈ partition cfg g := by
  simp only [FuseTensorExprs, List.mem_filterMap] at h
  obtain ⟨i, -, hi⟩ := h
  exact (place_group _ i k m hi).1

theorem startable_candidate (cfg : Config) (g : Graph) (i : Nat)
    (h : startable cfg g i = true) : candidate cfg g i = true := by
  simp only [startable, Bool.and_eq_true] at h
  exact h.1

theorem absorbable_single (cfg : Config) (g : Graph) (taken : List Nat) (i : Nat)
    (hothers : ∀ j, j ≠ i → candidate cfg g j = false) :
    absorbable cfg g taken [i] = [] := by
  unfold absorbable
  rw [List.filter_eq_nil_iff]
  intro j _
  by_cases hj : j = i
  · subst hj; simp
  · simp [hothers j hj]

theorem grow_single (cfg : Config) (g : Graph) (taken : List Nat) (fuel i : Nat)
    (hothers : ∀ j, j ≠ i → candidate cfg g j = false) :
    grow cfg g taken fuel [i] = [i] := by
  cases fuel with
  | zero => rfl
  | succ fuel => simp [grow, absorbable_single cfg g taken i hothers]

theorem visit_other (cfg : Config) (g : Graph) (st : Progress) (i j : Nat) (hj : j ≠ i)
    (hc : candidate cfg g j = false) :
    (visit cfg g st j).groups = st.groups ∧
      (i ∈ (visit cfg g st j).taken ↔ i ∈ st.taken) := by
  have hs : startable cfg g j = false := by simp [startable, hc]
  unfold visit
  split
  · exact ⟨rfl, Iff.rfl⟩
  · simp [hs, Ne.symm hj]

theorem visit_self (cfg : Config) (g : Graph) (st : Progress) (i : Nat)
    (hi : i ∉ st.taken) (hs : startable cfg g i = true)
    (hothers : ∀ j, j ≠ i → candidate cfg g j = false) :
    (visit cfg g st i).groups =
        st.groups ++ (if cfg.min_group_size ≤ 1 then [[i]] else []) ∧
      i ∈ (visit cfg g st i).taken := by
  have hnot : st.taken.contains i = false := by
    simpa [List.contains_eq_any_beq] using hi
  unfold visit
  simp only [hnot, hs, grow_single cfg g st.taken _ i hothers, List.length_singleton,
    Bool.false_eq_true, if_false, if_true]
  split <;> simp

theorem foldl_visit_absent (cfg : Config) (g : Graph) (i : Nat)
    (hothers : ∀ j, j ≠ i → candidate cfg g j = false) :
    ∀ (l : List Nat) (st : Progress), i ∉ l →
      (l.foldl (visit cfg g) st).groups = st.groups ∧
        (i ∈ (l.foldl (visit cfg g) st).taken ↔ i ∈ st.taken) := by
  intro l
  induction l with
  | nil => intro st _; exact ⟨rfl, Iff.rfl⟩
  | cons j l ih =>
    intro st hi
    rw [List.mem_cons, not_or] at hi
    obtain ⟨h₁, h₂⟩ := visit_other cfg g st i j (Ne.symm hi.1) (hothers j (Ne.symm hi.1))
    obtain ⟨h₃, h₄⟩ := ih (visit cfg g st j) hi.2
    exact ⟨by rw [List.foldl_cons, h₃, h₁], by rw [List.foldl_cons, h₄, h₂]⟩

theorem foldl_visit_present (cfg : Config) (g : Graph) (i : Nat)
    (hs : startable cfg g i = true)
    (hothers : ∀ j, j ≠ i → candidate cfg g j = false) :
    ∀ (l : List Nat) (st : Progress), l.Nodup → i ∈ l → i ∉ st.taken →
      (l.foldl (visit cfg g) st).groups =
        st.groups ++ (if cfg.min_group_size ≤ 1 then [[i]] else []) := by
  intro l
  induction l with
  | nil => intro st _ hi; cases hi
  | cons j l ih =>
    intro st hnd hi hti
    rw [List.nodup_cons] at hnd
    by_cases hj : j = i
    · subst hj
      obtain ⟨h₁, -⟩ := visit_self cfg g st j hti hs hothers
      obtain ⟨h₂, -⟩ := foldl_visit_absent cfg g j hothers l (visit cfg g st j) hnd.1
      rw [List.foldl_cons, h₂, h₁]
    · have hil : i ∈ l := by
        rcases List.mem_cons.mp hi with h | h
        · exact absurd h.symm hj
        · exact h
      obtain ⟨h₁, h₂⟩ := visit_other cfg g st i j hj (hothers j hj)
      rw [List.foldl_cons, ih (visit cfg g st j) hnd.2 hil (by rw [h₂]; exact hti), h₁]

theorem partition_single (cfg : Config) (g : Graph) (i : Nat)
    (hs : startable cfg g i = true)
    (hothers : ∀ j, j ≠ i → candidate cfg g j = false) :
    partition cfg g = if cfg.min_group_size ≤ 1 then [[i]] else [] := by
  have hlt := candidate_lt cfg g i (startable_candidate cfg g i hs)
  have := foldl_visit_present cfg g i hs hothers (List.range g.nodes.length).reverse ⟨[], []⟩
    (List.nodup_reverse.mpr (List.nodup_range _))
    (by simp [hlt]) (by simp)
  simpa [partition] using this

theorem place_nil (i : Nat) : place [] i = some (.plain i) := rfl

theorem place_single (i j : Nat) :
    place [[i]] j = some (if j = i then .group 0 [i] else .plain j) := by
  by_cases h : j = i
  · subst h
    simp [place, List.findIdx?]
  · have : ¬ i = j := fun e => h e.symm
    simp [place, List.findIdx?, h, this]

theorem filter_eq_range (n i : Nat) (hi : i < n) :
    (List.range n).filter (fun j => decide (j = i)) = [i] := by
  induction n with
  | zero => omega
  | succ n ih =>
    rw [List.range_succ, List.filter_append]
    by_cases h : i < n
    · have hne : ¬ n = i := by omega
      simp [ih h, hne]
    · have hin : i = n := by omega
      subst hin
      have : (List.range i).filter (fun j => decide (j = i)) = [] := by
        rw [List.filter_eq_nil_iff]
        intro j hj
        rw [List.mem_range] at hj
        simp only [decide_eq_true_eq]
        omega
      simp [this]

theorem fuse_single (cfg : Config) (g : Graph) (i : Nat)
    (hs : startable cfg g i = true)
    (hothers : ∀ j, j ≠ i → candidate cfg g j = false) :
    (2 ≤ cfg.min_group_size →
      FuseTensorExprs cfg g = (List.range g.nodes.length).map .plain) ∧
    (cfg.min_group_size ≤ 1 →
      FuseTensorExprs cfg g =
        (List.range g.nodes.length).map (fun j => if j = i then .group 0 [i] else .plain j)) := by
  have hp := partition_single cfg g i hs hothers
  constructor
  · intro h2
    have : ¬ cfg.min_group_size ≤ 1 := by omega
    rw [if_neg this] at hp
    simp only [FuseTensorExprs, hp]
    have : place [] = fun j => some (Item.plain j) := funext place_nil
    rw [this]
    exact congrFun (List.filterMap_eq_map Item.plain) _
  · intro h1
    rw [if_pos h1] at hp
    simp only [FuseTensorExprs, hp]
    have : place [[i]] = fun j => some (if j = i then Item.group 0 [i] else Item.plain j) :=
      funext (place_single i)
    rw [this]
    exact congrFun
      (List.filterMap_eq_map (fun j => if j = i then Item.group 0 [i] else Item.plain j)) _

/-- C3: every grouping node created by `FuseTensorExprs` wraps at least
`min_group_size` distinct original nodes.  In particular, in a graph whose only
fusible node is the node at `i` (it can start a group, and no other node is a
candidate), a `min_group_size` of `2` or more yields no grouping node, and a
`min_group_size` of `1` yields exactly one grouping node, which wraps the node
at `i`.  This holds for every allow-list, device gate and legality test. -/
theorem C3_min_group_size (cfg : Config) (g : Graph) :
    (∀ k members, Item.group k members ∈ FuseTensorExprs cfg g →
      cfg.min_group_size ≤ members.length ∧ members.Nodup ∧
        ∀ i ∈ members, i < g.nodes.length) ∧
    (∀ i, startable cfg g i = true → (∀ j, j ≠ i → candidate cfg g j = false) →
      (2 ≤ cfg.min_group_size → (FuseTensorExprs cfg g).filter Item.isGroup = []) ∧
      (cfg.min_group_size = 1 →
        (FuseTensorExprs cfg g).filter Item.isGroup = [.group 0 [i]])) := by
  constructor
  · intro k members h
    obtain ⟨hmin, hnd, hmem, -⟩ := partition_good cfg g members (group_mem_partition cfg g k members h)
    exact ⟨hmin, hnd, fun i hi => (hmem i hi).1⟩
  · intro i hs hothers
    obtain ⟨h₂, h₁⟩ := fuse_single cfg g i hs hothers
    have hlt := candidate_lt cfg g i (startable_candidate cfg g i hs)
    constructor
    · intro h
      rw [h₂ h, List.filter_eq_nil_iff]
      intro x hx
      obtain ⟨j, -, rfl⟩ := List.mem_map.mp hx
      simp [Item.isGroup]
    · intro h
      rw [h₁ (le_of_eq h), List.filter_map]
      have : (Item.isGroup ∘ fun j => if j = i then Item.group 0 [i] else Item.plain j)
          = fun j => decide (j = i) := by
        funext j
        by_cases hj : j = i <;> simp [hj, Item.isGroup]
      rw [this, filter_eq_range _ i hlt]
      simp

/-- C3, witness: the graph of `testFuserPass_3`, a single `aten::mul`. -/
theorem C3_min_group_size_witness :
    (FuseTensorExprs (testConfig 2 anyProducer) testFuserPass_3).filter Item.isGroup = [] ∧
    (FuseTensorExprs (testConfig 1 anyProducer) testFuserPass_3).filter Item.isGroup
      = [.group 0 [0]] :=
  have hothers : ∀ m j, j ≠ 0 → candidate (testConfig m anyProducer) testFuserPass_3 j = false := by
    intro m j hj
    cases j with
    | zero => exact absurd rfl hj
    | succ j => rfl
  ⟨((C3_min_group_size (testConfig 2 anyProducer) testFuserPass_3).2 0 (by decide)
      (hothers 2)).1 le_rfl,
   ((C3_min_group_size (testConfig 1 anyProducer) testFuserPass_3).2 0 (by decide)
      (hothers 1)).2 rfl⟩

theorem device_mem_devicesAt (g : Graph) (i : Nat) (n : Node) (v : Value) (d : Device)
    (hn : g.node? i = some n) (hv : v ∈ n.values) (hd : v.device = some d) :
    d ∈ g.devicesAt i := by
  simp only [Graph.devicesAt, hn, Node.devices, List.mem_filterMap]
  exact ⟨v, hv, hd⟩

theorem group_uniform (cfg : Config) (g : Graph) (k : Nat) (members : List Nat)
    (h : Item.group k members ∈ FuseTensorExprs cfg g) :
    ∀ i ∈ members, ∀ j ∈ members, ∀ d ∈ g.devicesAt i, ∀ e ∈ g.devicesAt j, d = e :=
  (partition_good cfg g members (group_mem_partition cfg g k members h)).2.2.2

/-- C4: every grouping node created by `FuseTensorExprs` is device-consistent:
any two known devices of tensor values that are inputs or outputs of nodes
inside one group are equal.  Consequently a node with two tensor inputs on
different devices is in no group, whatever `min_group_size` is, and two nodes
that touch different devices, a producer and its consumer in particular, are
never in the same group.  The CPU differs from every CUDA device and CUDA
devices with different indices differ. -/
theorem C4_device_consistent (cfg : Config) (g : Graph) :
    (∀ k members, Item.group k members ∈ FuseTensorExprs cfg g →
      ∀ i ∈ members, ∀ j ∈ members, ∀ d ∈ g.devicesAt i, ∀ e ∈ g.devicesAt j, d = e) ∧
    (∀ i n v w d e, g.node? i = some n → v ∈ n.inputs → w ∈ n.inputs →
      v.device = some d → w.device = some e → d ≠ e →
      ∀ k members, Item.group k members ∈ FuseTensorExprs cfg g → i ∉ members) ∧
    (∀ p c d e, d ∈ g.devicesAt p → e ∈ g.devicesAt c → d ≠ e →
      ∀ k members, Item.group k members ∈ FuseTensorExprs cfg g →
        ¬ (p ∈ members ∧ c ∈ members)) ∧
    (∀ i, Device.cpu ≠ Device.cuda i) ∧
    (∀ i j, i ≠ j → Device.cuda i ≠ Device.cuda j) := by
  refine ⟨group_uniform cfg g, ?_, ?_, ?_, ?_⟩
  · intro i n v w d e hn hv hw hd he hne k members hgrp hi
    have hvd := device_mem_devicesAt g i n v d hn
      (by simp only [Node.values, List.mem_append]; exact Or.inl hv) hd
    have hwe := device_mem_devicesAt g i n w e hn
      (by simp only [Node.values, List.mem_append]; exact Or.inl hw) he
    exact hne (group_uniform cfg g k members hgrp i hi i hi d hvd e hwe)
  · rintro p c d e hd he hne k members hgrp ⟨hp, hc⟩
    exact hne (group_uniform cfg g k members hgrp p hp c hc d hd e he)
  · intro i h
    cases h
  · intro i j hij h
    cases h
    exact hij rfl

/-- C4, witness: with `min_group_size = 1` the first multi-device test graph
does get a grouping node, around its `prim::ListConstruct`, and that group is
on the CPU only; in the second graph the `prim::ListConstruct` (at position
`1`) has inputs on `cpu` and on `cuda:0` and is in no group. -/
theorem C4_device_consistent_witness :
    (Item.group 0 [1] ∈ FuseTensorExprs (testConfig 1 anyProducer) testFuserPass_Multidevice_1 ∧
      ∀ d ∈ testFuserPass_Multidevice_1.devicesAt 1,
        ∀ e ∈ testFuserPass_Multidevice_1.devicesAt 1, d = e) ∧
    (∀ k members,
      Item.group k members ∈ FuseTensorExprs (testConfig 1 anyProducer) testFuserPass_Multidevice_2 →
        1 ∉ members) :=
  have hmem : Item.group 0 [1] ∈
      FuseTensorExprs (testConfig 1 anyProducer) testFuserPass_Multidevice_1 := by decide
  ⟨⟨hmem, (C4_device_consistent (testConfig 1 anyProducer) testFuserPass_Multidevice_1).1
      0 [1] hmem 1 (by simp) 1 (by simp)⟩,
   (C4_device_consistent (testConfig 1 anyProducer) testFuserPass_Multidevice_2).2.1 1
      ⟨"prim::ListConstruct",
        [⟨"%x", vec .cpu⟩, ⟨"%y", vec (.cuda 0)⟩, ⟨"%z", vec .cpu⟩],
        [⟨"%xyz_list", .other⟩]⟩
      ⟨"%x", vec .cpu⟩ ⟨"%y", vec (.cuda 0)⟩ .cpu (.cuda 0) rfl (by decide) (by decide)
      rfl rfl (by decide)⟩

set_option maxRecDepth 100000 in
/-- With literal step 3 the graph of `testFuserPass_1` gets one group, which
contains nodes from before and from after `aten::add_` (the test expects a
group, then `aten::add_`, then a group). -/
theorem anyProducer_testFuserPass_1 :
    FuseTensorExprs (testConfig 2 anyProducer) testFuserPass_1
      = [.plain 0, .plain 3, .group 0 [5, 4, 2, 1]] := by
  decide

set_option maxRecDepth 100000 in
/-- With the strict boundary rule the graph of `testFuserPass_1` gets a group
on either side of `aten::add_`. -/
theorem noBarrierBetween_testFuserPass_1 :
    FuseTensorExprs (testConfig 2 noBarrierBetween) testFuserPass_1
      = [.plain 0, .group 1 [2, 1], .plain 3, .group 0 [5, 4]] := by
  decide

set_option maxRecDepth 100000 in
/-- With the strict boundary rule the graph of `testFuserPass_2` gets no group
at all (the test expects a group after `aten::add_`). -/
theorem noBarrierBetween_testFuserPass_2 :
    FuseTensorExprs (testConfig 2 noBarrierBetween) testFuserPass_2
      = [.plain 0, .plain 1, .plain 2, .plain 3, .plain 4] := by
  decide

set_option maxRecDepth 100000 in
/-- With a boundary only for the mutated operand both tests are met: the graph
of `testFuserPass_1` gets a group on either side of `aten::add_`, and the graph
of `testFuserPass_2` gets, after `aten::add_`, a single group, made of the
`aten::mul` from before `aten::add_` and the `aten::mul` from after it. -/
theorem noReorderAcrossWrite_tests :
    FuseTensorExprs (testConfig 2 noReorderAcrossWrite) testFuserPass_1
      = [.plain 0, .group 1 [2, 1], .plain 3, .group 0 [5, 4]] ∧
    FuseTensorExprs (testConfig 2 noReorderAcrossWrite) testFuserPass_2
      = [.plain 0, .plain 2, .plain 3, .group 0 [4, 1]] := by
  decide

theorem absorbable_full (cfg : Config) (g : Graph) (taken grp : List Nat)
    (hnd : grp.Nodup) (hlt : ∀ x ∈ grp, x < g.nodes.length)
    (hlen : g.nodes.length ≤ grp.length) : absorbable cfg g taken grp = [] := by
  have hsub : grp ⊆ List.range g.nodes.length := fun x hx => List.mem_range.mpr (hlt x hx)
  have hperm : grp.Perm (List.range g.nodes.length) :=
    (List.subperm_of_subset hnd hsub).perm_of_length_le (by simpa using hlen)
  unfold absorbable
  rw [List.filter_eq_nil_iff]
  intro j hj
  have hmem : j ∈ grp := hperm.mem_iff.mpr (List.mem_reverse.mp hj)
  simp only [Bool.and_eq_true, Bool.not_eq_true', List.contains_eq_any_beq]
  rintro ⟨⟨⟨⟨⟨h₁, -⟩, -⟩, -⟩, -⟩, -⟩
  have : grp.any (fun x => j == x) = true := List.any_eq_true.mpr ⟨j, hmem, by simp⟩
  rw [this] at h₁
  cases h₁

theorem grow_fixpoint_aux (cfg : Config) (g : Graph) (taken : List Nat) :
    ∀ (fuel : Nat) (grp : List Nat), grp.Nodup → (∀ x ∈ grp, x < g.nodes.length) →
      g.nodes.length ≤ grp.length + fuel →
      absorbable cfg g taken (grow cfg g taken fuel grp) = [] := by
  intro fuel
  induction fuel with
  | zero =>
    intro grp hnd hlt hlen
    exact absorbable_full cfg g taken grp hnd hlt hlen
  | succ fuel ih =>
    intro grp hnd hlt hlen
    unfold grow
    cases hab : absorbable cfg g taken grp with
    | nil => exact hab
    | cons j rest =>
      obtain ⟨hj, hnot, -, -, -⟩ := mem_absorbable cfg g taken grp j
        (by rw [hab]; exact List.mem_cons_self _ _)
      apply ih
      · rw [List.nodup_append]
        exact ⟨hnd, List.nodup_singleton j, by
          intro x hx hx'
          rw [List.mem_singleton] at hx'
          subst hx'
          exact hnot hx⟩
      · intro x hx
        rw [List.mem_append, List.mem_singleton] at hx
        rcases hx with hx | rfl
        · exact hlt x hx
        · exact hj
      · simp only [List.length_append, List.length_singleton]
        omega

/-- The fuel given to `grow` by `visit` is enough: the group returned for a
node of the graph is a fixpoint, no further producer can be absorbed. -/
theorem grow_fixpoint (cfg : Config) (g : Graph) (taken : List Nat) (i : Nat)
    (hi : i < g.nodes.length) :
    absorbable cfg g taken (grow cfg g taken g.nodes.length [i]) = [] :=
  grow_fixpoint_aux cfg g taken g.nodes.length [i] (List.nodup_singleton i)
    (by intro x hx; rw [List.mem_singleton] at hx; subst hx; exact hi)
    (by simp)

set_option maxRecDepth 100000 in
/-- With a boundary only for the mutated operand, the modelled pass meets the
expectation of every other test of the file as well: no grouping node for
rank-0 tensors, for a disabled device, for unknown shapes, and for the second
to sixth multi-device graphs; a grouping node for the first multi-device
graph; and for `testFuserPass_3` none at `min_group_size = 2` and one at `1`. -/
theorem noReorderAcrossWrite_other_tests :
    (FuseTensorExprs (testConfig 2 noReorderAcrossWrite) testFuserPass_0DimInput).filter
        Item.isGroup = [] ∧
    (FuseTensorExprs (withoutCPUFuser (testConfig 1 noReorderAcrossWrite))
        testFuserPass_UnfusibleDevice).filter Item.isGroup = [] ∧
    (FuseTensorExprs (testConfig 2 noReorderAcrossWrite) testFuserPass_UnknownShapes).filter
        Item.isGroup = [] ∧
    (FuseTensorExprs (testConfig 1 noReorderAcrossWrite) testFuserPass_Multidevice_1).filter
        Item.isGroup = [.group 0 [1]] ∧
    (FuseTensorExprs (testConfig 1 noReorderAcrossWrite) testFuserPass_Multidevice_2).filter
        Item.isGroup = [] ∧
    (FuseTensorExprs (testConfig 2 noReorderAcrossWrite) testFuserPass_Multidevice_3).filter
        Item.isGroup = [] ∧
    (FuseTensorExprs (testConfig 2 noReorderAcrossWrite) testFuserPass_Multidevice_4).filter
        Item.isGroup = [] ∧
    (FuseTensorExprs (testConfig 1 noReorderAcrossWrite) testFuserPass_Multidevice_5).filter
        Item.isGroup = [] ∧
    (FuseTensorExprs (testConfig 2 noReorderAcrossWrite) testFuserPass_Multidevice_6).filter
        Item.isGroup = [] ∧
    (FuseTensorExprs (testConfig 2 noReorderAcrossWrite) testFuserPass_3).filter
        Item.isGroup = [] ∧
    (FuseTensorExprs (testConfig 1 noReorderAcrossWrite) testFuserPass_3).filter
        Item.isGroup = [.group 0 [0]] := by
  decide

set_option maxRecDepth 100000 in
/-- Whether a group spans an in-place operator is decided by the legality
test alone: for `twoChains` the strict reading gives one grouping node on
either side of the in-place operator, and the reading that meets the tests of
the file gives a single grouping node made of all four `aten::mul`. -/
theorem boundary_rule_decides_twoChains :
    FuseTensorExprs (testConfig 2 noBarrierBetween) twoChains
      = [.group 1 [1, 0], .plain 2, .group 0 [4, 3]] ∧
    FuseTensorExprs (testConfig 2 noReorderAcrossWrite) twoChains
      = [.plain 2, .group 0 [4, 3, 1, 0]] := by
  decide

end Fuser
